import Mathlib

/-!
Verification of the boardshort-photography content pipeline.

The repository has two scripts sharing a JSON contract:
an Aggregator (build.js: merges per-day / sidecar JSON files into one
index) and a Content Processor (site.js: tags, enriches and groups the
index for rendering).  This file gives a shallow embedding of both,
translated from the JavaScript source, and proves the spec's claims
about them.

Modelling conventions:
* JavaScript strings are Lean `String`; absent (`undefined`) values are
  `Option` `none`.
* JavaScript numbers reached through `Number(string)` are modelled by
  `JSNum`: `NaN`, a signed infinity, or a finite rational.  `Number`
  itself is modelled by the full string-to-number grammar: whitespace
  trimming, the empty string to `0`, `0x`/`0o`/`0b` radix literals,
  an optional sign, decimal digits with an optional fraction and
  exponent, the `Infinity` literal, and `NaN` for everything else.
  Arithmetic propagates `NaN`, and `NaN < x` is `false`, as in JS.
* Stateful code (the weather cache, the day map) is explicit state
  passing; the network and `Math.random` are oracle parameters.
-/

/-! ### JavaScript value helpers -/

/-- A JS number as observed through `Number(string)` and the tag
arithmetic: `NaN`, a signed infinity, or a finite (exact) rational. -/
inductive JSNum where
  | nan
  | inf (neg : Bool)
  | fin (q : ℚ)
deriving Repr, DecidableEq

/-- Numeric value of a decimal digit string (used to model `Number`). -/
def digitVal (s : String) : ℕ :=
  s.data.foldl (fun n c => 10 * n + (c.toNat - 48)) 0

/-- JS `StrWhiteSpace`: ASCII blanks and line terminators, NBSP, BOM,
and the Unicode space separators. -/
def isWsChar (c : Char) : Bool :=
  decide (c.toNat ∈ [9, 10, 11, 12, 13, 32, 160, 0x1680, 0x2028, 0x2029,
    0x202F, 0x205F, 0x3000, 0xFEFF])
  || decide (0x2000 ≤ c.toNat ∧ c.toNat ≤ 0x200A)

/-- Strip leading and trailing JS whitespace. -/
def trimWs (l : List Char) : List Char :=
  ((l.dropWhile isWsChar).reverse.dropWhile isWsChar).reverse

/-- Value of a digit in radices up to 16; `99` for a non-digit. -/
def radixDigitVal (c : Char) : ℕ :=
  if '0' ≤ c ∧ c ≤ '9' then c.toNat - 48
  else if 'a' ≤ c ∧ c ≤ 'f' then c.toNat - 87
  else if 'A' ≤ c ∧ c ≤ 'F' then c.toNat - 55
  else 99

/-- Body of a `0x`/`0o`/`0b` literal: non-empty and all digits of the
radix, else `NaN`. -/
def parseRadix (r : ℕ) (l : List Char) : JSNum :=
  if l ≠ [] ∧ l.all (fun c => radixDigitVal c < r) then
    .fin ((l.foldl (fun n c => r * n + radixDigitVal c) 0 : ℕ))
  else .nan

/-- Consume the longest digit prefix, accumulating count and value. -/
def takeDigitsAux (len val : ℕ) : List Char → ℕ × ℕ × List Char
  | [] => (len, val, [])
  | c :: rest =>
    if c.isDigit then takeDigitsAux (len + 1) (10 * val + (c.toNat - 48)) rest
    else (len, val, c :: rest)

/-- Exponent digits: non-empty and all decimal. -/
def parseExpDigits (neg : Bool) (ds : List Char) : Option (Bool × ℕ) :=
  if ds ≠ [] ∧ ds.all Char.isDigit then
    some (neg, ds.foldl (fun n c => 10 * n + (c.toNat - 48)) 0)
  else none

/-- Optional `ExponentPart`; `none` on trailing garbage. -/
def parseExp (l : List Char) : Option (Bool × ℕ) :=
  if l = [] then some (false, 0)
  else if l.head? = some 'e' ∨ l.head? = some 'E' then
    if l.tail.head? = some '+' then parseExpDigits false l.tail.tail
    else if l.tail.head? = some '-' then parseExpDigits true l.tail.tail
    else parseExpDigits false l.tail
  else none

/-- Value of `int.frac e exp`; the integer-only case stays a plain
`ℕ`-cast so that it evaluates inside the kernel. -/
def decValue (ival flen fval : ℕ) (expNeg : Bool) (expVal : ℕ) : ℚ :=
  if flen = 0 ∧ expVal = 0 then (ival : ℚ)
  else if expNeg then
    ((ival : ℚ) + (fval : ℚ) / (10 : ℚ) ^ flen) / (10 : ℚ) ^ expVal
  else ((ival : ℚ) + (fval : ℚ) / (10 : ℚ) ^ flen) * (10 : ℚ) ^ expVal

/-- `StrUnsignedDecimalLiteral`: digits, optional `.digits`, optional
exponent; at least one digit around the dot, nothing left over. -/
def parseDec (l : List Char) : Option ℚ :=
  let p := takeDigitsAux 0 0 l
  if p.2.2.head? = some '.' then
    let q := takeDigitsAux 0 0 p.2.2.tail
    if p.1 + q.1 = 0 then none
    else (parseExp q.2.2).map fun e => decValue p.2.1 q.1 q.2.1 e.1 e.2
  else
    if p.1 = 0 then none
    else (parseExp p.2.2).map fun e => decValue p.2.1 0 0 e.1 e.2

/-- Unsigned branch after the optional sign: `Infinity` or a decimal
literal; else `NaN`. -/
def parseUnsigned (neg : Bool) (l : List Char) : JSNum :=
  if l = ['I', 'n', 'f', 'i', 'n', 'i', 't', 'y'] then .inf neg
  else match parseDec l with
    | some q => .fin (if neg then -q else q)
    | none => .nan

/-- Optionally signed decimal / `Infinity` literal. -/
def parseSigned (l : List Char) : JSNum :=
  if l.head? = some '+' then parseUnsigned false l.tail
  else if l.head? = some '-' then parseUnsigned true l.tail
  else parseUnsigned false l

/-- Model of JS `Number(s)` on strings: trim whitespace; empty → `0`;
`0x`/`0o`/`0b` radix literals (no sign allowed); otherwise an
optionally signed decimal literal or `Infinity`; anything else `NaN`.
In particular `" 5"`, `"1.5"`, `"1e2"` and `"+5"` all parse to finite
numbers, as in JS. -/
def jsNumber (s : String) : JSNum :=
  let t := trimWs s.data
  if t = [] then .fin 0
  else if t.take 2 = ['0', 'x'] ∨ t.take 2 = ['0', 'X'] then
    parseRadix 16 (t.drop 2)
  else if t.take 2 = ['0', 'o'] ∨ t.take 2 = ['0', 'O'] then
    parseRadix 8 (t.drop 2)
  else if t.take 2 = ['0', 'b'] ∨ t.take 2 = ['0', 'B'] then
    parseRadix 2 (t.drop 2)
  else parseSigned t

/-- Array destructuring read: element `i` of an array of JS numbers;
an out-of-range read gives `undefined`, which the arithmetic below
coerces to `NaN`, so both collapse to `.nan`. -/
def jsGet (l : List JSNum) (i : ℕ) : JSNum :=
  (l.get? i).getD .nan

/-- JS addition: NaN propagates, opposite infinities give NaN. -/
def jsAdd : JSNum → JSNum → JSNum
  | .nan, _ => .nan
  | .inf _, .nan => .nan
  | .fin _, .nan => .nan
  | .inf a, .inf b => if a = b then .inf a else .nan
  | .inf a, .fin _ => .inf a
  | .fin _, .inf b => .inf b
  | .fin x, .fin y => .fin (x + y)

/-- JS division by a positive finite constant (here `60`). -/
def jsDiv (a : JSNum) (d : ℚ) : JSNum :=
  match a with
  | .nan => .nan
  | .inf b => .inf b
  | .fin x => .fin (x / d)

/-- JS `a < b` for finite `b`: false on NaN, true exactly for
`-Infinity` and finite values below `b`. -/
def jsLt (a : JSNum) (b : ℚ) : Bool :=
  match a with
  | .nan => false
  | .inf neg => neg
  | .fin x => decide (x < b)

/-- Truthiness of a possibly-absent JS string: `undefined` and `""` are
falsy, every other string truthy. -/
def jsTruthy (o : Option String) : Bool :=
  match o with
  | none => false
  | some s => !(s.data = [])

/-- Model of `a || b` for a possibly-absent string `a` with default `b`. -/
def jsOr (o : Option String) (b : String) : String :=
  if jsTruthy o then o.getD "" else b

/-- Model of `a || b` for a possibly-absent number `a` (JS `0` is falsy). -/
def jsOrNum (o : Option ℚ) (b : ℚ) : ℚ :=
  match o with
  | some q => if q = 0 then b else q
  | none => b

/-- Model of JS `Math.round`: round half toward positive infinity. -/
def jsRound (q : ℚ) : ℤ :=
  (q + 1/2).floor

/-- Split a character list at every occurrence of `sep` (JS
`String.prototype.split` with a single-character separator; the empty
string splits to one empty field, as in JS). -/
def splitOnChar (sep : Char) : List Char → List (List Char)
  | [] => [[]]
  | c :: rest =>
    match splitOnChar sep rest with
    | [] => [[c]]
    | g :: gs => if c = sep then [] :: g :: gs else (c :: g) :: gs

/-- Model of JS `s.split(sep)` for a single-character separator. -/
def jsSplit (s : String) (sep : Char) : List String :=
  (splitOnChar sep s.data).map String.mk

/-! ### Tag derivation

Source (site.js `getTag`):
```
const [h, m] = timeStr.split(':').map(Number);
return (h + m / 60) < 12 ? 'sunrise' : 'sunset';
```
Source (build.js `deriveTag`):
```
if (!time) return 'sunrise';
const [h, m] = time.split(':').map(Number);
return (h + m / 60) < 12 ? 'sunrise' : 'sunset';
```
-/

/-- Content Processor tag rule (site.js `getTag`). -/
def getTag (timeStr : String) : String :=
  let parts := (jsSplit timeStr ':').map jsNumber
  if jsLt (jsAdd (jsGet parts 0) (jsDiv (jsGet parts 1) 60)) 12
  then "sunrise" else "sunset"

/-- Aggregator tag rule (build.js `deriveTag`); `none` models an absent
`time` field, and `!time` is also true for the empty string. -/
def deriveTag (time : Option String) : String :=
  match time with
  | none => "sunrise"
  | some t =>
    if t.data = [] then "sunrise"
    else
      let parts := (jsSplit t ':').map jsNumber
      if jsLt (jsAdd (jsGet parts 0) (jsDiv (jsGet parts 1) 60)) 12
      then "sunrise" else "sunset"

/-! ### Aggregator (build.js)

The aggregator reads every `.json` file of the content directory (in
sorted filename order), parses it, classifies it as sidecar
(`data.src` truthy), per-day (`data.images` an array) or unrecognized,
and merges the images into `dayMap`, keyed by `date`.  A JSON parse
failure, a missing `date`, or an unrecognized shape each skip the file
with a warning.  Finally each day's images are sorted time-ascending
and the days date-descending.

An input file is modelled as a filename together with `Option RawFile`
(`none` = the file did not parse as JSON).  A parsed JSON object is
modelled by the fields the aggregator reads or copies; `images = none`
models a missing / non-array `images` field.  `dayMap` is an
insertion-ordered association list, which matches JS object key order
for date-shaped (non-index) keys. -/

/-- Fields of one image record as stored in the content files. -/
structure Img where
  id : Option String := none
  src : Option String := none
  typ : Option String := none
  caption : Option String := none
  time : Option String := none
  weather : Option String := none
  tag : Option String := none
  date : Option String := none
  location : Option String := none
deriving Repr, DecidableEq

/-- Fields of one parsed content file: the image fields (for the
sidecar shape the file IS an image record) plus the per-day fields. -/
structure RawFile extends Img where
  images : Option (List Img) := none
deriving Repr, DecidableEq

/-- Source (build.js): `{...img, tag: img.tag || deriveTag(img.time)}`.
The spread copies every property of its argument, so a pushed record
keeps all the fields of the object it came from — in particular a
sidecar file pushed whole keeps its stray `images` property.  The
aggregated image type is therefore `RawFile`; an element of a per-day
`images` array (a plain image object, no `images` property) is embedded
as `⟨i, none⟩`. -/
def normalizeImage (i : RawFile) : RawFile :=
  { i with tag := some (jsOr i.tag (deriveTag i.time)) }

/-- One `dayMap` entry: `{ date, location, images }`. -/
structure DayRec where
  date : String
  location : String
  images : List RawFile
deriving Repr, DecidableEq

/-- Reasons of the `Skipping file` warnings of build.js. -/
inductive WarnReason where
  | parseError
  | noDate
  | unrecognized
deriving Repr, DecidableEq

/-- An input file: filename and parse result. -/
abbrev Entry := String × Option RawFile

/-- Create-or-append on the insertion-ordered day map: models
`if (!dayMap[date]) dayMap[date] = {date, location: …, images: []}`
followed by pushing `imgs` onto `dayMap[date].images`. -/
def addImgs : List DayRec → String → String → List RawFile → List DayRec
  | [], dte, loc, imgs => [⟨dte, loc, imgs⟩]
  | r :: rest, dte, loc, imgs =>
    if r.date = dte then { r with images := r.images ++ imgs } :: rest
    else r :: addImgs rest dte loc imgs

/-- One iteration of the aggregator's file loop. -/
def aggStep (acc : List DayRec × List (String × WarnReason)) (e : Entry) :
    List DayRec × List (String × WarnReason) :=
  match e with
  | (name, none) => (acc.1, acc.2 ++ [(name, .parseError)])
  | (name, some data) =>
    if jsTruthy data.src then
      if jsTruthy data.date then
        (addImgs acc.1 (data.date.getD "") (jsOr data.location "")
          [normalizeImage data], acc.2)
      else (acc.1, acc.2 ++ [(name, .noDate)])
    else
      match data.images with
      | some imgs =>
        if jsTruthy data.date then
          (addImgs acc.1 (data.date.getD "") (jsOr data.location "")
            (imgs.map fun i => normalizeImage ⟨i, none⟩), acc.2)
        else (acc.1, acc.2 ++ [(name, .noDate)])
      | none => (acc.1, acc.2 ++ [(name, .unrecognized)])

/-- The aggregator's file loop: builds `dayMap` and the warning log. -/
def aggregate (files : List Entry) : List DayRec × List (String × WarnReason) :=
  files.foldl aggStep ([], [])

/-- Lexicographic comparison of character lists, computably. -/
def lexLe : List Char → List Char → Bool
  | [], _ => true
  | _ :: _, [] => false
  | a :: as, b :: bs =>
    if a < b then true else if b < a then false else lexLe as bs

/-- Model of `a.localeCompare(b) <= 0` as plain lexicographic string
comparison (they coincide on the `HH:MM` / `YYYY-MM-DD` data the
comparators are applied to). -/
def strLe (a b : String) : Bool :=
  lexLe a.data b.data

lemma lexLe_iff_not_lex (as bs : List Char) :
    lexLe as bs = true ↔ ¬ List.Lex (· < ·) bs as := by
  induction as generalizing bs with
  | nil =>
    cases bs <;> simp [lexLe, List.Lex.not_nil_right]
  | cons a as ih =>
    cases bs with
    | nil =>
      simp only [lexLe, Bool.false_eq_true, false_iff, not_not]
      exact List.Lex.nil
    | cons b bs =>
      by_cases hab : a < b
      · simp only [lexLe, if_pos hab, true_iff]
        intro hlex
        cases hlex with
        | cons h => exact lt_irrefl a hab
        | rel h => exact lt_asymm hab h
      · by_cases hba : b < a
        · simp only [lexLe, if_neg hab, if_pos hba, Bool.false_eq_true, false_iff,
            not_not]
          exact List.Lex.rel hba
        · have hEq : b = a := le_antisymm (le_of_not_lt hab) (le_of_not_lt hba)
          subst hEq
          rw [show lexLe (b :: as) (b :: bs) = lexLe as bs from by
            simp [lexLe, lt_irrefl], ih]
          constructor
          · intro h hlex
            cases hlex with
            | cons h2 => exact h h2
            | rel h2 => exact lt_irrefl b h2
          · intro h hlex
            exact h (List.Lex.cons hlex)

lemma strLe_iff_le (a b : String) : strLe a b = true ↔ a ≤ b := by
  rw [strLe, lexLe_iff_not_lex, ← not_lt, String.lt_iff_toList_lt]
  rfl

lemma strLe_trans {a b c : String} (h1 : strLe a b = true)
    (h2 : strLe b c = true) : strLe a c = true :=
  (strLe_iff_le a c).mpr (le_trans ((strLe_iff_le a b).mp h1)
    ((strLe_iff_le b c).mp h2))

lemma strLe_total (a b : String) : (strLe a b || strLe b a) = true := by
  rcases le_total a b with h | h
  · simp [(strLe_iff_le a b).mpr h]
  · simp [(strLe_iff_le b a).mpr h]

/-- Image comparator `(a.time || '').localeCompare(b.time || '') <= 0`. -/
def imageLe (a b : RawFile) : Bool :=
  strLe (a.time.getD "") (b.time.getD "")

/-- In-day image sort; `List.mergeSort` is stable, as JS `sort` is. -/
def sortImages (l : List RawFile) : List RawFile :=
  l.mergeSort imageLe

/-- Day comparator `b.date.localeCompare(a.date) <= 0` (descending). -/
def dayGe (a b : DayRec) : Bool :=
  strLe b.date a.date

/-- Whole aggregator run: group, sort images ascending by time, sort
days newest-first; returns the output array and the warning log. -/
def runAggregator (files : List Entry) :
    List DayRec × List (String × WarnReason) :=
  let mw := aggregate files
  (((mw.1.map fun r => { r with images := sortImages r.images }).mergeSort dayGe),
   mw.2)

/-! Pure reformulation of the loop used by the proofs. -/

/-- Valid file: parses, has a truthy `date`, and is recognized as
sidecar or per-day. -/
def validEntry : Entry → Bool
  | (_, none) => false
  | (_, some d) => (jsTruthy d.src || d.images.isSome) && jsTruthy d.date

/-- Warning (if any) an entry produces, as a function of the entry alone. -/
def warnOf : Entry → Option (String × WarnReason)
  | (n, none) => some (n, .parseError)
  | (n, some d) =>
    if jsTruthy d.src then
      if jsTruthy d.date then none else some (n, .noDate)
    else
      match d.images with
      | some _ => if jsTruthy d.date then none else some (n, .noDate)
      | none => some (n, .unrecognized)

/-- Date key a valid entry files under. -/
def eDate : Entry → String
  | (_, none) => ""
  | (_, some d) => d.date.getD ""

/-- Location string a valid entry supplies on day creation. -/
def eLoc : Entry → String
  | (_, none) => ""
  | (_, some d) => jsOr d.location ""

/-- Normalized images a valid entry contributes. -/
def contribOf : Entry → List RawFile
  | (_, none) => []
  | (_, some d) =>
    if jsTruthy d.src then [normalizeImage d]
    else (d.images.getD []).map fun i => normalizeImage ⟨i, none⟩

/-- Map-only action of one loop step on a valid entry. -/
def pureAdd (m : List DayRec) (e : Entry) : List DayRec :=
  addImgs m (eDate e) (eLoc e) (contribOf e)

/-- First map entry with the given date, i.e. `dayMap[k]`. -/
def lookupDay (m : List DayRec) (k : String) : Option DayRec :=
  m.find? fun r => r.date == k

/-- Concatenated contributions of all entries filed under date `k`. -/
def contribFor (k : String) (fs : List Entry) : List RawFile :=
  (fs.filter fun e => eDate e == k).flatMap contribOf

lemma aggStep_valid (acc : List DayRec × List (String × WarnReason)) (e : Entry)
    (h : validEntry e = true) : aggStep acc e = (pureAdd acc.1 e, acc.2) := by
  obtain ⟨n, d⟩ := e
  cases d with
  | none => simp [validEntry] at h
  | some data =>
    simp only [validEntry, Bool.and_eq_true, Bool.or_eq_true] at h
    obtain ⟨hshape, hdate⟩ := h
    cases hsrc : jsTruthy data.src with
    | true => simp [aggStep, pureAdd, eDate, eLoc, contribOf, hsrc, hdate]
    | false =>
      cases himg : data.images with
      | none => rw [hsrc] at hshape; simp [himg] at hshape
      | some imgs => simp [aggStep, pureAdd, eDate, eLoc, contribOf, hsrc, hdate, himg]

lemma warnOf_eq_none_iff (e : Entry) : warnOf e = none ↔ validEntry e = true := by
  obtain ⟨n, d⟩ := e
  cases d with
  | none => simp [warnOf, validEntry]
  | some data =>
    cases hsrc : jsTruthy data.src <;> cases hdate : jsTruthy data.date <;>
      cases himg : data.images <;> simp [warnOf, validEntry, hsrc, hdate, himg]

lemma aggStep_invalid (acc : List DayRec × List (String × WarnReason)) (e : Entry)
    (h : validEntry e = false) :
    aggStep acc e = (acc.1, acc.2 ++ (warnOf e).toList) := by
  obtain ⟨n, d⟩ := e
  cases d with
  | none => simp [aggStep, warnOf]
  | some data =>
    cases hsrc : jsTruthy data.src <;> cases hdate : jsTruthy data.date <;>
      cases himg : data.images <;>
      simp_all [aggStep, warnOf, validEntry]

lemma foldl_aggStep_fst (fs : List Entry) :
    ∀ (m : List DayRec) (w : List (String × WarnReason)),
    (fs.foldl aggStep (m, w)).1 = (fs.filter validEntry).foldl pureAdd m := by
  induction fs with
  | nil => simp
  | cons e fs ih =>
    intro m w
    cases hv : validEntry e with
    | true =>
      rw [List.foldl_cons, aggStep_valid _ _ hv]
      simp only [List.filter_cons, hv, if_pos, List.foldl_cons]
      exact ih _ _
    | false =>
      rw [List.foldl_cons, aggStep_invalid _ _ hv]
      simp only [List.filter_cons, hv]
      exact ih _ _

lemma foldl_aggStep_snd (fs : List Entry) :
    ∀ (m : List DayRec) (w : List (String × WarnReason)),
    (fs.foldl aggStep (m, w)).2 = w ++ fs.filterMap warnOf := by
  induction fs with
  | nil => simp
  | cons e fs ih =>
    intro m w
    cases hw : warnOf e with
    | none =>
      have hv := (warnOf_eq_none_iff e).mp hw
      rw [List.foldl_cons, aggStep_valid _ _ hv, List.filterMap_cons, hw]
      exact ih _ _
    | some u =>
      have hv : validEntry e = false := by
        cases hv2 : validEntry e
        · rfl
        · rw [← warnOf_eq_none_iff] at hv2; rw [hv2] at hw; cases hw
      rw [List.foldl_cons, aggStep_invalid _ _ hv, List.filterMap_cons, hw, ih]
      simp

lemma contribFor_cons (k : String) (e : Entry) (fs : List Entry) :
    contribFor k (e :: fs) =
      (if eDate e == k then contribOf e else []) ++ contribFor k fs := by
  simp only [contribFor, List.filter_cons]
  split <;> simp_all

lemma lookupDay_cons (x : DayRec) (l : List DayRec) (k : String) :
    lookupDay (x :: l) k = if x.date = k then some x else lookupDay l k := by
  simp only [lookupDay, List.find?_cons]
  by_cases h : x.date = k
  · simp [h]
  · have hb : (x.date == k) = false := beq_eq_false_iff_ne.mpr h
    simp [hb, h]

lemma lookupDay_addImgs (m : List DayRec) (dte loc : String) (imgs : List RawFile)
    (k : String) :
    lookupDay (addImgs m dte loc imgs) k =
      if k = dte then
        match lookupDay m dte with
        | some r => some { r with images := r.images ++ imgs }
        | none => some ⟨dte, loc, imgs⟩
      else lookupDay m k := by
  induction m with
  | nil =>
    by_cases hk : k = dte
    · subst hk
      simp [addImgs, lookupDay_cons, lookupDay]
    · have hk2 : ¬ dte = k := fun h => hk h.symm
      simp [addImgs, lookupDay_cons, lookupDay, hk, hk2]
  | cons r rest ih =>
    by_cases hr : r.date = dte
    · have ha : addImgs (r :: rest) dte loc imgs
          = { r with images := r.images ++ imgs } :: rest := by
        simp [addImgs, hr]
      rw [ha]
      simp only [lookupDay_cons]
      by_cases hk : r.date = k
      · have hk2 : k = dte := hk.symm.trans hr
        simp [hk, hk2, hr]
      · have hk2 : ¬ k = dte := fun h => hk (show r.date = k from h ▸ hr)
        simp [hk, hk2]
    · have ha : addImgs (r :: rest) dte loc imgs
          = r :: addImgs rest dte loc imgs := by
        simp [addImgs, hr]
      rw [ha]
      simp only [lookupDay_cons]
      by_cases hrk : r.date = k
      · have hk2 : ¬ k = dte := fun h => hr (hrk.trans h)
        simp [hrk, hk2]
      · simp only [if_neg hrk, if_neg hr, ih]

lemma lookupDay_foldl_pureAdd (fs : List Entry) (m : List DayRec) (k : String) :
    lookupDay (fs.foldl pureAdd m) k =
      match lookupDay m k with
      | some r => some { r with images := r.images ++ contribFor k fs }
      | none =>
        match fs.find? (fun e => eDate e == k) with
        | some e => some ⟨k, eLoc e, contribFor k fs⟩
        | none => none := by
  induction fs generalizing m with
  | nil =>
    cases h : lookupDay m k with
    | none => simp [h]
    | some r => simp [h, contribFor]
  | cons e fs ih =>
    rw [List.foldl_cons, ih, pureAdd, lookupDay_addImgs]
    by_cases hk : k = eDate e
    · rw [if_pos hk]
      have hbeq : (eDate e == k) = true := beq_iff_eq.mpr hk.symm
      rw [contribFor_cons, if_pos hbeq, List.find?_cons, hbeq]
      subst hk
      cases h : lookupDay m (eDate e) with
      | none => simp
      | some r => simp [List.append_assoc]
    · rw [if_neg hk]
      have hbeq : (eDate e == k) = false :=
        beq_eq_false_iff_ne.mpr fun h => hk h.symm
      rw [contribFor_cons, if_neg (by simp [hbeq]), List.find?_cons, hbeq]
      simp

lemma dates_addImgs (m : List DayRec) (dte loc : String) (imgs : List RawFile) :
    (addImgs m dte loc imgs).map (fun r => r.date) =
      if dte ∈ m.map (fun r => r.date) then m.map (fun r => r.date)
      else m.map (fun r => r.date) ++ [dte] := by
  induction m with
  | nil => simp [addImgs]
  | cons r rest ih =>
    by_cases hr : r.date = dte
    · simp [addImgs, hr]
    · have : ¬ dte = r.date := fun h => hr h.symm
      simp only [addImgs, if_neg hr, List.map_cons, List.mem_cons, this,
        false_or, ih]
      by_cases hmem : dte ∈ rest.map (fun r => r.date) <;> simp [hmem]

lemma nodup_dates_addImgs (m : List DayRec) (dte loc : String) (imgs : List RawFile)
    (h : (m.map (fun r => r.date)).Nodup) :
    ((addImgs m dte loc imgs).map (fun r => r.date)).Nodup := by
  rw [dates_addImgs]
  by_cases hmem : dte ∈ m.map (fun r => r.date)
  · simpa [hmem] using h
  · simp [hmem, List.nodup_append, h]

lemma nodup_dates_foldl (fs : List Entry) (m : List DayRec)
    (h : (m.map (fun r => r.date)).Nodup) :
    (((fs.foldl pureAdd m).map (fun r => r.date)).Nodup) := by
  induction fs generalizing m with
  | nil => exact h
  | cons e fs ih =>
    rw [List.foldl_cons]
    exact ih _ (nodup_dates_addImgs _ _ _ _ h)

lemma lookupDay_isSome_iff (m : List DayRec) (k : String) :
    (lookupDay m k).isSome = true ↔ k ∈ m.map (fun r => r.date) := by
  simp only [lookupDay, List.find?_isSome, List.mem_map]
  constructor
  · rintro ⟨r, hr, hbeq⟩
    exact ⟨r, hr, beq_iff_eq.mp hbeq⟩
  · rintro ⟨r, hr, hbeq⟩
    exact ⟨r, hr, beq_iff_eq.mpr hbeq⟩

lemma lookupDay_of_mem_nodup (m : List DayRec) (r : DayRec) (h : r ∈ m)
    (hn : (m.map (fun x => x.date)).Nodup) : lookupDay m r.date = some r := by
  induction m with
  | nil => cases h
  | cons x rest ih =>
    rw [lookupDay_cons]
    rcases List.mem_cons.mp h with h1 | h1
    · subst h1; simp
    · have hx : ¬ x.date = r.date := by
        intro hEq
        have : x.date ∈ rest.map (fun x => x.date) :=
          hEq ▸ List.mem_map.mpr ⟨r, h1, rfl⟩
        exact (List.nodup_cons.mp (by simpa using hn)).1 this
      rw [if_neg hx]
      exact ih h1 (List.nodup_cons.mp (by simpa using hn)).2

lemma aggregate_fst_eq (files : List Entry)
    (hv : ∀ e ∈ files, validEntry e = true) :
    (aggregate files).1 = files.foldl pureAdd [] := by
  rw [aggregate, foldl_aggStep_fst, List.filter_eq_self.mpr hv]

lemma runAggregator_fst (files : List Entry) :
    (runAggregator files).1 =
      ((aggregate files).1.map fun r =>
        { r with images := sortImages r.images }).mergeSort dayGe := rfl

lemma runAggregator_snd (files : List Entry) :
    (runAggregator files).2 = files.filterMap warnOf := by
  have : (runAggregator files).2 = (aggregate files).2 := rfl
  rw [this, aggregate, foldl_aggStep_snd]
  simp

/-- C1: for every collection of valid per-day or sidecar input files the
aggregator output has exactly one DayRecord per distinct date (dates in
the output are distinct, and are exactly the dates of the input files);
in the day map the record of date k carries exactly the concatenation,
in file order, of the normalized images contributed by all files of
date k, and its location comes from the first file seen for that date
(so later files never override it, in particular when they omit
location); the final output records are exactly the day-map records
with their images time-sorted. -/
theorem aggregator_groups_by_date (files : List Entry)
    (hv : ∀ e ∈ files, validEntry e = true) :
    (((runAggregator files).1.map fun d => d.date).Nodup)
    ∧ (∀ k, (∃ d ∈ (runAggregator files).1, d.date = k)
        ↔ ∃ e ∈ files, eDate e = k)
    ∧ (∀ k r, lookupDay (aggregate files).1 k = some r →
        r.date = k ∧ r.images = contribFor k files
        ∧ ∀ e₀, files.find? (fun e => eDate e == k) = some e₀ →
            r.location = eLoc e₀)
    ∧ (∀ d ∈ (runAggregator files).1, ∃ r, r ∈ (aggregate files).1 ∧
        lookupDay (aggregate files).1 d.date = some r ∧
        d.date = r.date ∧ d.images = sortImages r.images
        ∧ d.location = r.location) := by
  have hm := aggregate_fst_eq files hv
  have hnodupm : (((aggregate files).1).map (fun r => r.date)).Nodup := by
    rw [hm]; exact nodup_dates_foldl files [] (by simp)
  have hlk : ∀ k, lookupDay (aggregate files).1 k =
      match files.find? (fun e => eDate e == k) with
      | some e => some ⟨k, eLoc e, contribFor k files⟩
      | none => none := by
    intro k
    rw [hm, lookupDay_foldl_pureAdd]
    simp [lookupDay, List.find?]
  have hperm : List.Perm (runAggregator files).1
      ((aggregate files).1.map fun r =>
        { r with images := sortImages r.images }) := by
    rw [runAggregator_fst]; exact List.mergeSort_perm _ _
  have hpermdates : List.Perm ((runAggregator files).1.map fun d => d.date)
      ((aggregate files).1.map fun r => r.date) := by
    have h2 := hperm.map (fun d => d.date)
    simpa [Function.comp] using h2
  refine ⟨hpermdates.nodup_iff.mpr hnodupm, ?_, ?_, ?_⟩
  · intro k
    have h1 : (∃ d ∈ (runAggregator files).1, d.date = k)
        ↔ k ∈ ((runAggregator files).1.map fun d => d.date) := by
      simp [List.mem_map, eq_comm]
    rw [h1, hpermdates.mem_iff, ← lookupDay_isSome_iff, hlk]
    cases hf : files.find? (fun e => eDate e == k) with
    | none =>
      simp only [Option.isSome_none]
      constructor
      · intro h; cases h
      · rintro ⟨e, he, hek⟩
        have := List.find?_eq_none.mp hf e he
        simp [beq_iff_eq, hek] at this
    | some e =>
      simp only [Option.isSome_some, true_iff]
      have hmem := List.mem_of_find?_eq_some hf
      have hpe := List.find?_some hf
      exact ⟨e, hmem, beq_iff_eq.mp hpe⟩
  · intro k r hr
    rw [hlk] at hr
    cases hf : files.find? (fun e => eDate e == k) with
    | none => rw [hf] at hr; cases hr
    | some e =>
      rw [hf] at hr
      injection hr with hr'
      subst hr'
      refine ⟨rfl, rfl, ?_⟩
      intro e₀ h₀
      injection h₀ with h₀'
      rw [← h₀']
  · intro d hd
    rw [runAggregator_fst, List.mem_mergeSort] at hd
    obtain ⟨r, hrm, hdr⟩ := List.mem_map.mp hd
    refine ⟨r, hrm, ?_, ?_, ?_, ?_⟩
    · have : d.date = r.date := by rw [← hdr]
      rw [this]
      exact lookupDay_of_mem_nodup _ _ hrm hnodupm
    · rw [← hdr]
    · rw [← hdr]
    · rw [← hdr]

/-- C2: the aggregator output is an array of day records sorted
descending by date (lexicographic), inside each record the images are
sorted ascending by time (lexicographic), and a missing time is
treated as the empty string, which sorts before every time string. -/
theorem aggregator_output_sorted (files : List Entry) :
    ((runAggregator files).1.Pairwise fun a b => b.date ≤ a.date)
    ∧ (∀ d ∈ (runAggregator files).1,
        d.images.Pairwise fun a b => a.time.getD "" ≤ b.time.getD "")
    ∧ ∀ a b : RawFile, a.time = none → imageLe a b = true := by
  refine ⟨?_, ?_, ?_⟩
  · rw [runAggregator_fst]
    have h := @List.sorted_mergeSort _ dayGe
      (fun a b c hab hbc => strLe_trans hbc hab)
      (fun a b => strLe_total b.date a.date)
      ((aggregate files).1.map fun r => { r with images := sortImages r.images })
    exact h.imp fun hab => (strLe_iff_le _ _).mp hab
  · intro d hd
    rw [runAggregator_fst, List.mem_mergeSort] at hd
    obtain ⟨r, hrm, hdr⟩ := List.mem_map.mp hd
    have himg : d.images = sortImages r.images := by rw [← hdr]
    rw [himg, sortImages]
    have h := @List.sorted_mergeSort _ imageLe
      (fun a b c hab hbc => strLe_trans hab hbc)
      (fun a b => strLe_total (a.time.getD "") (b.time.getD ""))
      r.images
    exact h.imp fun hab => (strLe_iff_le _ _).mp hab
  · intro a b hnone
    rw [imageLe, hnone]
    rfl

lemma warnOf_noDate (name : String) (data : RawFile)
    (hdate : jsTruthy data.date = false)
    (hshape : jsTruthy data.src = true ∨ data.images.isSome = true) :
    warnOf (name, some data) = some (name, WarnReason.noDate) := by
  rcases hshape with hsrc | himg
  · simp [warnOf, hsrc, hdate]
  · obtain ⟨imgs, himgs⟩ := Option.isSome_iff_exists.mp himg
    cases hsrc : jsTruthy data.src <;> simp [warnOf, hsrc, hdate, himgs]

lemma runAggregator_drop_invalid (l₁ l₂ : List Entry) (e : Entry)
    (hv : validEntry e = false) :
    (runAggregator (l₁ ++ e :: l₂)).1 = (runAggregator (l₁ ++ l₂)).1 := by
  rw [runAggregator_fst, runAggregator_fst, aggregate, aggregate,
    foldl_aggStep_fst, foldl_aggStep_fst]
  rw [List.filter_append, List.filter_append, List.filter_cons, hv]
  simp

/-- C9: a directory holding one file that fails to parse and one valid
file aggregates to exactly the valid file's day (with its images
time-sorted), while the bad file is recorded in the warning log by name
with a parse-error reason and the run completes (the model is a total
function); a parsed file with a missing date is likewise skipped
without contributing anything, with a no-date warning naming it. -/
theorem aggregator_bad_file_nonfatal
    (bad good : Entry) (hbad : bad.2 = none) (hgood : validEntry good = true)
    (files : List Entry) (horder : files = [bad, good] ∨ files = [good, bad]) :
    (runAggregator files).1 = [⟨eDate good, eLoc good, sortImages (contribOf good)⟩]
    ∧ (runAggregator files).2 = [(bad.1, WarnReason.parseError)]
    ∧ ∀ (l₁ l₂ : List Entry) (name : String) (data : RawFile),
        jsTruthy data.date = false →
        (jsTruthy data.src = true ∨ data.images.isSome = true) →
        (runAggregator (l₁ ++ (name, some data) :: l₂)).1
            = (runAggregator (l₁ ++ l₂)).1
        ∧ (name, WarnReason.noDate) ∈ (runAggregator (l₁ ++ (name, some data) :: l₂)).2 := by
  obtain ⟨bn, bd⟩ := bad
  have hbd : bd = none := hbad
  subst hbd
  have hbadv : validEntry (bn, none) = false := rfl
  have hwbad : warnOf (bn, none) = some (bn, WarnReason.parseError) := rfl
  have hwgood : warnOf good = none := (warnOf_eq_none_iff good).mpr hgood
  have hfst : (runAggregator files).1
      = [⟨eDate good, eLoc good, sortImages (contribOf good)⟩] := by
    rw [runAggregator_fst, aggregate, foldl_aggStep_fst]
    have hfilter : files.filter validEntry = [good] := by
      rcases horder with h | h <;> subst h <;>
        simp [List.filter_cons, hbadv, hgood]
    rw [hfilter]
    simp [pureAdd, addImgs]
  refine ⟨hfst, ?_, ?_⟩
  · rw [runAggregator_snd]
    rcases horder with h | h <;> subst h <;>
      simp [List.filterMap_cons, hwbad, hwgood]
  · intro l₁ l₂ name data hdate hshape
    have hve : validEntry (name, some data) = false := by
      simp [validEntry, hdate]
    refine ⟨runAggregator_drop_invalid _ _ _ hve, ?_⟩
    rw [runAggregator_snd]
    exact List.mem_filterMap.mpr
      ⟨(name, some data), by simp, warnOf_noDate name data hdate hshape⟩

/-- C10: a parsed file with a (valid) date but neither a truthy `src`
nor an `images` array is skipped with an unrecognized-format warning
and contributes nothing to the output, wherever it sits in the input
list; and when a file has both a truthy `src` and an `images` array
the sidecar branch wins: the day gets exactly one image record, built
by spreading the file's own fields, and the `images` array is never
expanded into further images — but it is NOT discarded: the spread
copies it verbatim onto the single pushed record, so the output does
depend on the `images` field. -/
theorem aggregator_unrecognized_and_sidecar_precedence :
    (∀ (l₁ l₂ : List Entry) (name : String) (data : RawFile),
       jsTruthy data.date = true →
       jsTruthy data.src = false → data.images = none →
       (runAggregator (l₁ ++ (name, some data) :: l₂)).1
           = (runAggregator (l₁ ++ l₂)).1
       ∧ (name, WarnReason.unrecognized)
           ∈ (runAggregator (l₁ ++ (name, some data) :: l₂)).2)
    ∧ (∀ (name : String) (data : RawFile),
       jsTruthy data.src = true → jsTruthy data.date = true →
       (runAggregator [(name, some data)]).1
         = [⟨data.date.getD "", jsOr data.location "",
             [normalizeImage data]⟩]
       ∧ (normalizeImage data).images = data.images
       ∧ ∀ imgs : Option (List Img),
           ((runAggregator [(name, some { data with images := imgs })]).1.map
              fun d => d.images.length) = [1]) := by
  constructor
  · intro l₁ l₂ name data hdate hsrc himgs
    have hve : validEntry (name, some data) = false := by
      simp [validEntry, hsrc, himgs]
    refine ⟨runAggregator_drop_invalid _ _ _ hve, ?_⟩
    rw [runAggregator_snd]
    refine List.mem_filterMap.mpr ⟨(name, some data), by simp, ?_⟩
    simp [warnOf, hsrc, himgs]
  · intro name data hsrc hdate
    refine ⟨?_, rfl, ?_⟩
    · rw [runAggregator_fst]
      have : (aggregate [(name, some data)]).1
          = [⟨data.date.getD "", jsOr data.location "",
              [normalizeImage data]⟩] := by
        simp [aggregate, aggStep, hsrc, hdate, addImgs]
      rw [this]
      simp [sortImages]
    · intro imgs
      rw [runAggregator_fst]
      have : (aggregate [(name, some { data with images := imgs })]).1
          = [⟨data.date.getD "", jsOr data.location "",
              [normalizeImage { data with images := imgs }]⟩] := by
        simp [aggregate, aggStep, hsrc, hdate, addImgs]
      rw [this]
      simp [sortImages]

/-! ### Claims about tag derivation -/

lemma notWs_of_digit (c : Char) (h : c.isDigit = true) : isWsChar c = false := by
  simp [Char.isDigit] at h
  obtain ⟨h1, h2⟩ := h
  have h1' : 48 ≤ c.val.toNat := h1
  have h2' : c.val.toNat ≤ 57 := h2
  simp [isWsChar, Char.toNat]
  omega

lemma dropWhile_ws_eq_self (l : List Char)
    (h : ∀ c, l.head? = some c → isWsChar c = false) :
    l.dropWhile isWsChar = l := by
  cases l with
  | nil => rfl
  | cons a as =>
    rw [List.dropWhile_cons, h a rfl]
    simp

lemma trimWs_of_all_digits (l : List Char) (h : l.all Char.isDigit = true) :
    trimWs l = l := by
  have hd : ∀ c ∈ l, isWsChar c = false := fun c hc =>
    notWs_of_digit c (List.all_eq_true.mp h c hc)
  rw [trimWs, dropWhile_ws_eq_self l (fun c hc => hd c (by
    cases l with
    | nil => simp at hc
    | cons a as =>
      rw [List.head?_cons, Option.some_inj] at hc
      exact hc ▸ List.mem_cons_self a as))]
  rw [dropWhile_ws_eq_self l.reverse (fun c hc => hd c (by
    have hmem : c ∈ l.reverse := by
      cases hrev : l.reverse with
      | nil => rw [hrev] at hc; simp at hc
      | cons a as =>
        rw [hrev, List.head?_cons, Option.some_inj] at hc
        exact hc ▸ List.mem_cons_self a as
    exact List.mem_reverse.mp hmem))]
  exact List.reverse_reverse l

lemma takeDigitsAux_all (l : List Char) (h : l.all Char.isDigit = true)
    (len val : ℕ) :
    takeDigitsAux len val l
      = (len + l.length, l.foldl (fun n c => 10 * n + (c.toNat - 48)) val, []) := by
  induction l generalizing len val with
  | nil => simp [takeDigitsAux]
  | cons c cs ih =>
    rw [List.all_cons, Bool.and_eq_true] at h
    rw [takeDigitsAux, if_pos h.1, ih h.2]
    simp
    omega

lemma parseDec_digits (l : List Char) (h : l.all Char.isDigit = true)
    (hne : l ≠ []) :
    parseDec l
      = some ((l.foldl (fun n c => 10 * n + (c.toNat - 48)) 0 : ℕ)) := by
  rw [parseDec]
  simp only [takeDigitsAux_all l h 0 0]
  simp [parseExp, decValue, List.length_eq_zero, hne]

lemma parseSigned_digits (l : List Char) (h : l.all Char.isDigit = true)
    (hne : l ≠ []) :
    parseSigned l
      = .fin ((l.foldl (fun n c => 10 * n + (c.toNat - 48)) 0 : ℕ)) := by
  have hhead : ∀ c, l.head? = some c → c.isDigit = true := by
    intro c hc
    cases l with
    | nil => simp at hc
    | cons a as =>
      rw [List.head?_cons, Option.some_inj] at hc
      rw [List.all_cons, Bool.and_eq_true] at h
      exact hc ▸ h.1
  have hInf : ¬ l = ['I', 'n', 'f', 'i', 'n', 'i', 't', 'y'] := by
    intro hEq
    have := List.all_eq_true.mp h 'I' (by rw [hEq]; simp)
    exact absurd this (by decide)
  rw [parseSigned, if_neg, if_neg, parseUnsigned, if_neg hInf,
    parseDec_digits l h hne]
  · rfl
  · intro hc
    exact absurd (hhead '-' hc) (by decide)
  · intro hc
    exact absurd (hhead '+' hc) (by decide)

lemma jsNumber_digits (s : String) (h : s.data.all Char.isDigit = true) :
    jsNumber s = .fin ((digitVal s : ℚ)) := by
  rw [jsNumber]
  simp only [trimWs_of_all_digits s.data h]
  by_cases h0 : s.data = []
  · rw [if_pos h0, digitVal, h0]
    norm_num
  · have hrad : ∀ c : Char, c.isDigit = false → ∀ d : Char,
        ¬ s.data.take 2 = [d, c] := by
      intro c hc d hEq
      have hmem : c ∈ s.data.take 2 := by rw [hEq]; simp
      have hmem2 : c ∈ s.data := List.take_subset _ _ hmem
      have := List.all_eq_true.mp h c hmem2
      rw [hc] at this
      exact Bool.false_ne_true this
    rw [if_neg h0,
      if_neg (fun hor => hor.elim (hrad 'x' (by decide) '0') (hrad 'X' (by decide) '0')),
      if_neg (fun hor => hor.elim (hrad 'o' (by decide) '0') (hrad 'O' (by decide) '0')),
      if_neg (fun hor => hor.elim (hrad 'b' (by decide) '0') (hrad 'B' (by decide) '0')),
      parseSigned_digits s.data h h0]
    rfl

/-- C3: tag derivation is a pure function of the `HH:MM` string: with
hour field hs and minute field ms (digit strings), the tag is sunrise
exactly when hs + ms/60 < 12, else sunset; build.js deriveTag agrees
with site.js getTag on every present non-empty time string of that
shape; in particular 05:47 and 11:59 map to sunrise and 12:00 and
20:11 map to sunset under both functions. -/
theorem tag_rule_pure (s hs ms : String)
    (hsplit : jsSplit s ':' = [hs, ms])
    (h1 : hs.data.all Char.isDigit = true)
    (h2 : ms.data.all Char.isDigit = true) :
    (getTag s = if (digitVal hs : ℚ) + digitVal ms / 60 < 12
      then "sunrise" else "sunset")
    ∧ deriveTag (some s) = getTag s
    ∧ (getTag "05:47" = "sunrise" ∧ getTag "11:59" = "sunrise"
       ∧ getTag "12:00" = "sunset" ∧ getTag "20:11" = "sunset")
    ∧ (deriveTag (some "05:47") = "sunrise"
       ∧ deriveTag (some "11:59") = "sunrise"
       ∧ deriveTag (some "12:00") = "sunset"
       ∧ deriveTag (some "20:11") = "sunset") := by
  refine ⟨?_, ?_, ?_, ?_⟩
  · rw [getTag, hsplit]
    simp only [List.map_cons, List.map_nil,
      jsNumber_digits hs h1, jsNumber_digits ms h2]
    simp [jsGet, jsAdd, jsDiv, jsLt]
  · have hne : ¬ s.data = [] := by
      intro h0
      rw [jsSplit, h0] at hsplit
      simp [splitOnChar] at hsplit
    simp only [deriveTag, if_neg hne]
    rfl
  · refine ⟨?_, ?_, ?_, ?_⟩
    · rw [getTag, show (jsSplit "05:47" ':').map jsNumber
          = [JSNum.fin ((5 : ℚ)), .fin 47] from by decide]
      norm_num [jsGet, jsAdd, jsDiv, jsLt]
    · rw [getTag, show (jsSplit "11:59" ':').map jsNumber
          = [JSNum.fin ((11 : ℚ)), .fin 59] from by decide]
      norm_num [jsGet, jsAdd, jsDiv, jsLt]
    · rw [getTag, show (jsSplit "12:00" ':').map jsNumber
          = [JSNum.fin ((12 : ℚ)), .fin 0] from by decide]
      norm_num [jsGet, jsAdd, jsDiv, jsLt]
    · rw [getTag, show (jsSplit "20:11" ':').map jsNumber
          = [JSNum.fin ((20 : ℚ)), .fin 11] from by decide]
      norm_num [jsGet, jsAdd, jsDiv, jsLt]
  · refine ⟨?_, ?_, ?_, ?_⟩
    · rw [show deriveTag (some "05:47") = getTag "05:47" from rfl,
        getTag, show (jsSplit "05:47" ':').map jsNumber
          = [JSNum.fin ((5 : ℚ)), .fin 47] from by decide]
      norm_num [jsGet, jsAdd, jsDiv, jsLt]
    · rw [show deriveTag (some "11:59") = getTag "11:59" from rfl,
        getTag, show (jsSplit "11:59" ':').map jsNumber
          = [JSNum.fin ((11 : ℚ)), .fin 59] from by decide]
      norm_num [jsGet, jsAdd, jsDiv, jsLt]
    · rw [show deriveTag (some "12:00") = getTag "12:00" from rfl,
        getTag, show (jsSplit "12:00" ':').map jsNumber
          = [JSNum.fin ((12 : ℚ)), .fin 0] from by decide]
      norm_num [jsGet, jsAdd, jsDiv, jsLt]
    · rw [show deriveTag (some "20:11") = getTag "20:11" from rfl,
        getTag, show (jsSplit "20:11" ':').map jsNumber
          = [JSNum.fin ((20 : ℚ)), .fin 11] from by decide]
      norm_num [jsGet, jsAdd, jsDiv, jsLt]

theorem tag_rule_pure_witness :
    (getTag "05:47" = if (digitVal "05" : ℚ) + digitVal "47" / 60 < 12
      then "sunrise" else "sunset")
    ∧ deriveTag (some "05:47") = getTag "05:47"
    ∧ getTag "12:00" = "sunset" :=
  ⟨(tag_rule_pure "05:47" "05" "47" (by decide) (by decide) (by decide)).1,
   (tag_rule_pure "05:47" "05" "47" (by decide) (by decide) (by decide)).2.1,
   (tag_rule_pure "05:47" "05" "47" (by decide) (by decide) (by decide)).2.2.1.2.2.1⟩

/-- C8 counterexample: on the non-empty time string "abc" (not of
HH:MM shape) the aggregator deriveTag returns "sunset", not the
claimed "sunrise" default: `Number("abc")` is NaN and `NaN < 12` is
false, selecting the sunset branch. -/
theorem deriveTag_unparseable_cex :
    deriveTag (some "abc") = "sunset"
    ∧ deriveTag (some "abc") ≠ "sunrise" := by
  constructor
  · decide
  · decide

/-- C8 (amended): deriveTag is total — it never throws on a string
input — but the claimed "sunrise" default holds only for an absent or
empty time (the `!time` guard).  Otherwise the branch is decided by
the JS value of h + m/60, with h and m the first two colon-fields
coerced by `Number`: a NaN value picks "sunset" (`NaN < 12` is
false), a finite value q picks "sunrise" exactly when q < 12, and an
infinite value picks "sunrise" exactly when it is negative.  A string
that is not of HH:MM shape can therefore land in either branch, since
`Number` also accepts whitespace, signs, decimals and exponents:
"9:30", " 5:30" and "1.5:30" all yield "sunrise", while "abc" gives
NaN and hence "sunset". -/
theorem deriveTag_total_defaults :
    (deriveTag none = "sunrise" ∧ deriveTag (some "") = "sunrise")
    ∧ (∀ s : String, s.data ≠ [] →
        (jsAdd (jsGet ((jsSplit s ':').map jsNumber) 0)
            (jsDiv (jsGet ((jsSplit s ':').map jsNumber) 1) 60) = .nan →
          deriveTag (some s) = "sunset")
        ∧ (∀ q : ℚ,
            jsAdd (jsGet ((jsSplit s ':').map jsNumber) 0)
              (jsDiv (jsGet ((jsSplit s ':').map jsNumber) 1) 60) = .fin q →
            deriveTag (some s) = if q < 12 then "sunrise" else "sunset")
        ∧ (∀ b : Bool,
            jsAdd (jsGet ((jsSplit s ':').map jsNumber) 0)
              (jsDiv (jsGet ((jsSplit s ':').map jsNumber) 1) 60) = .inf b →
            deriveTag (some s) = if b then "sunrise" else "sunset"))
    ∧ (deriveTag (some "9:30") = "sunrise"
       ∧ deriveTag (some " 5:30") = "sunrise"
       ∧ deriveTag (some "1.5:30") = "sunrise"
       ∧ deriveTag (some "abc") = "sunset") := by
  have hbody : ∀ s : String, s.data ≠ [] →
      deriveTag (some s)
        = if jsLt (jsAdd (jsGet ((jsSplit s ':').map jsNumber) 0)
              (jsDiv (jsGet ((jsSplit s ':').map jsNumber) 1) 60)) 12
          then "sunrise" else "sunset" := by
    intro s hne
    simp only [deriveTag, if_neg hne]
  refine ⟨⟨rfl, rfl⟩, ?_, ?_, ?_, ?_, ?_⟩
  · intro s hne
    refine ⟨?_, ?_, ?_⟩
    · intro hE
      rw [hbody s hne, hE]
      rfl
    · intro q hE
      rw [hbody s hne, hE]
      simp [jsLt]
    · intro b hE
      rw [hbody s hne, hE]
      cases b <;> rfl
  · rw [show deriveTag (some "9:30") = getTag "9:30" from rfl, getTag,
      show (jsSplit "9:30" ':').map jsNumber
        = [JSNum.fin ((9 : ℚ)), .fin ((30 : ℚ))] from by decide]
    norm_num [jsGet, jsAdd, jsDiv, jsLt]
  · rw [show deriveTag (some " 5:30") = getTag " 5:30" from rfl, getTag,
      show (jsSplit " 5:30" ':').map jsNumber
        = [JSNum.fin ((5 : ℚ)), .fin ((30 : ℚ))] from by decide]
    norm_num [jsGet, jsAdd, jsDiv, jsLt]
  · rw [show deriveTag (some "1.5:30") = getTag "1.5:30" from rfl, getTag,
      show (jsSplit "1.5:30" ':').map jsNumber
        = [JSNum.fin (decValue 1 1 5 false 0), .fin ((30 : ℚ))] from rfl]
    norm_num [jsGet, jsAdd, jsDiv, jsLt, decValue]
  · decide

theorem deriveTag_total_defaults_witness :
    deriveTag (some "xx:yy") = "sunset"
    ∧ deriveTag (some "06:30")
        = (if ((6 : ℚ) + (30 : ℚ) / 60 < 12) then "sunrise" else "sunset")
    ∧ deriveTag (some "Infinity:00")
        = (if false then "sunrise" else "sunset") :=
  ⟨(deriveTag_total_defaults.2.1 "xx:yy" (by decide)).1 (by decide),
   (deriveTag_total_defaults.2.1 "06:30" (by decide)).2.1 ((6 : ℚ) + (30 : ℚ) / 60)
     (by
       rw [show (jsSplit "06:30" ':').map jsNumber
           = [JSNum.fin ((6 : ℚ)), .fin ((30 : ℚ))] from by decide]
       rfl),
   (deriveTag_total_defaults.2.1 "Infinity:00" (by decide)).2.2 false
     (by decide)⟩

/-! ### Concrete sample inputs used by the witnesses -/

/-- Sidecar file for 2025-06-14, dawn shot. -/
def sampleSidecarA : RawFile :=
  { date := some "2025-06-14", src := some "a.jpg", time := some "05:47" }

/-- Second sidecar file for the same date, dusk shot. -/
def sampleSidecarB : RawFile :=
  { date := some "2025-06-14", src := some "b.jpg", time := some "20:11",
    location := some "La Jolla Cove" }

/-- Per-day file for 2025-06-13. -/
def samplePerDay : RawFile :=
  { date := some "2025-06-13", location := some "Ocean Beach",
    images := some [{ src := some "c.jpg", time := some "06:02" }] }

/-- Three valid files, two of them sharing a date. -/
def sampleFiles : List Entry :=
  [("a.json", some sampleSidecarA), ("b.json", some sampleSidecarB),
   ("c.json", some samplePerDay)]

theorem aggregator_groups_by_date_witness :
    (((runAggregator sampleFiles).1.map fun d => d.date).Nodup)
    ∧ (∀ k r, lookupDay (aggregate sampleFiles).1 k = some r →
        r.date = k ∧ r.images = contribFor k sampleFiles
        ∧ ∀ e₀, sampleFiles.find? (fun e => eDate e == k) = some e₀ →
            r.location = eLoc e₀) :=
  ⟨(aggregator_groups_by_date sampleFiles (by decide)).1,
   (aggregator_groups_by_date sampleFiles (by decide)).2.2.1⟩

theorem aggregator_bad_file_nonfatal_witness :
    (runAggregator [("broken.json", (none : Option RawFile)),
        ("c.json", some samplePerDay)]).1
      = [⟨eDate ("c.json", some samplePerDay),
          eLoc ("c.json", some samplePerDay),
          sortImages (contribOf ("c.json", some samplePerDay))⟩]
    ∧ (runAggregator [("broken.json", (none : Option RawFile)),
        ("c.json", some samplePerDay)]).2
      = [("broken.json", WarnReason.parseError)] :=
  ⟨(aggregator_bad_file_nonfatal ("broken.json", none) ("c.json", some samplePerDay)
      rfl (by decide) _ (Or.inl rfl)).1,
   (aggregator_bad_file_nonfatal ("broken.json", none) ("c.json", some samplePerDay)
      rfl (by decide) _ (Or.inl rfl)).2.1⟩

/-- A parsed file with a date but no `src` and no `images` array. -/
def sampleUnrecognized : RawFile :=
  { date := some "2025-06-12", caption := some "stray note" }

/-- A file carrying both a truthy `src` and an `images` array. -/
def sampleBothShapes : RawFile :=
  { date := some "2025-06-14", src := some "a.jpg", time := some "05:47",
    tag := some "sunrise",
    images := some [{ src := some "z.jpg", time := some "09:00" }] }

/-- C10 counterexample: the sidecar branch does not DISCARD the
`images` array.  `{...data}` copies every property, so the single
pushed image record of `sampleBothShapes` still carries the `images`
array, and the output of the run differs from the run on the same file
with the `images` field removed. -/
theorem sidecar_images_not_discarded_cex :
    (normalizeImage sampleBothShapes).images
      = some [{ src := some "z.jpg", time := some "09:00" }]
    ∧ runAggregator
        [("both.json", some { sampleBothShapes with images := none })]
      ≠ runAggregator [("both.json", some sampleBothShapes)] := by
  have hval : ∀ d : RawFile, jsTruthy d.src = true → jsTruthy d.date = true →
      (runAggregator [("both.json", some d)]).1
        = [⟨d.date.getD "", jsOr d.location "", [normalizeImage d]⟩] := by
    intro d hsrc hdate
    rw [runAggregator_fst]
    have : (aggregate [("both.json", some d)]).1
        = [⟨d.date.getD "", jsOr d.location "", [normalizeImage d]⟩] := by
      simp [aggregate, aggStep, hsrc, hdate, addImgs]
    rw [this]
    simp [sortImages]
  refine ⟨rfl, fun h => ?_⟩
  have h1 := hval sampleBothShapes (by decide) (by decide)
  have h2 := hval { sampleBothShapes with images := none } (by decide) (by decide)
  have := congrArg Prod.fst h
  rw [h1, h2] at this
  exact absurd this (by decide)

theorem aggregator_unrecognized_and_sidecar_precedence_witness :
    ((runAggregator [("a.json", some sampleSidecarA),
        ("x.json", some sampleUnrecognized)]).1
      = (runAggregator [("a.json", some sampleSidecarA)]).1
     ∧ ("x.json", WarnReason.unrecognized)
        ∈ (runAggregator [("a.json", some sampleSidecarA),
            ("x.json", some sampleUnrecognized)]).2)
    ∧ ((runAggregator [("both.json", some sampleBothShapes)]).1
      = [⟨sampleBothShapes.date.getD "", jsOr sampleBothShapes.location "",
          [normalizeImage sampleBothShapes]⟩]
       ∧ (normalizeImage sampleBothShapes).images = sampleBothShapes.images
       ∧ ((runAggregator [("both.json",
            some { sampleBothShapes with images := none })]).1.map
              fun d => d.images.length) = [1]) :=
  ⟨by
    have h := aggregator_unrecognized_and_sidecar_precedence.1
      [("a.json", some sampleSidecarA)] [] "x.json" sampleUnrecognized
      (by decide) (by decide) (by decide)
    simpa using h,
   (aggregator_unrecognized_and_sidecar_precedence.2 "both.json" sampleBothShapes
      (by decide) (by decide)).1,
   (aggregator_unrecognized_and_sidecar_precedence.2 "both.json" sampleBothShapes
      (by decide) (by decide)).2.1,
   (aggregator_unrecognized_and_sidecar_precedence.2 "both.json" sampleBothShapes
      (by decide) (by decide)).2.2 none⟩

/-! ### Calendar model (JS `Date` on `YYYY-MM-DD` inputs)

`getWeekSunday` builds a local-midnight `Date`, reads `getDay()`
(0 = Sunday), subtracts that many days with `setDate`, and formats the
result with `toISOString().slice(0, 10)`.  For environments at or
behind UTC (the deployment target is San Diego per the source
comments) local midnight and the ISO date coincide, so the function is
plain proleptic-Gregorian calendar arithmetic, which is what is
modelled here: day numbers counted from 0001-01-01, day-of-week from
the day number, `setDate` subtraction as iterated calendar
predecessor. -/

/-- A parsed calendar date (year, month 1..12, day 1..monthLen). -/
structure Ymd where
  y : ℤ
  m : ℤ
  d : ℤ
deriving Repr, DecidableEq

/-- Gregorian leap-year test. -/
def isLeap (y : ℤ) : Bool :=
  (y % 4 == 0 && y % 100 != 0) || y % 400 == 0

/-- Length of month `m` of year `y`. -/
def monthLen (y m : ℤ) : ℤ :=
  if m = 2 then (if isLeap y then 29 else 28)
  else if m = 4 ∨ m = 6 ∨ m = 9 ∨ m = 11 then 30 else 31

/-- Days in year `y` before month `m`. -/
def daysBeforeMonth (y m : ℤ) : ℤ :=
  (if m ≤ 1 then 0 else if m ≤ 2 then 31 else if m ≤ 3 then 59
   else if m ≤ 4 then 90 else if m ≤ 5 then 120 else if m ≤ 6 then 151
   else if m ≤ 7 then 181 else if m ≤ 8 then 212 else if m ≤ 9 then 243
   else if m ≤ 10 then 273 else if m ≤ 11 then 304 else 334)
  + (if 2 < m ∧ isLeap y = true then 1 else 0)

/-- Number of leap years in `[1, y)` (proleptic Gregorian). -/
def leapsBefore (y : ℤ) : ℤ :=
  (y - 1) / 4 - (y - 1) / 100 + (y - 1) / 400

/-- Days before January 1 of year `y`, counted from 0001-01-01. -/
def daysBeforeYear (y : ℤ) : ℤ :=
  365 * (y - 1) + leapsBefore y

/-- Day number of a date (0001-01-01 is day 0). -/
def dayNumber (x : Ymd) : ℤ :=
  daysBeforeYear x.y + daysBeforeMonth x.y x.m + (x.d - 1)

/-- Day of week, 0 = Sunday (0001-01-01 is a Monday). -/
def dowOf (x : Ymd) : ℤ :=
  (dayNumber x + 1) % 7

/-- In-range date fields. -/
def ValidYmd (x : Ymd) : Prop :=
  1 ≤ x.m ∧ x.m ≤ 12 ∧ 1 ≤ x.d ∧ x.d ≤ monthLen x.y x.m

instance (x : Ymd) : Decidable (ValidYmd x) := by
  rw [ValidYmd]; infer_instance

/-- Previous calendar day (one step of `setDate`'s normalization). -/
def predDay (x : Ymd) : Ymd :=
  if 1 < x.d then ⟨x.y, x.m, x.d - 1⟩
  else if 1 < x.m then ⟨x.y, x.m - 1, monthLen x.y (x.m - 1)⟩
  else ⟨x.y - 1, 12, 31⟩

/-- Next calendar day. -/
def succDay (x : Ymd) : Ymd :=
  if x.d < monthLen x.y x.m then ⟨x.y, x.m, x.d + 1⟩
  else if x.m < 12 then ⟨x.y, x.m + 1, 1⟩
  else ⟨x.y + 1, 1, 1⟩

/-- Model of `date.setDate(date.getDate() - k)` for `k ≥ 0`. -/
def subDays (x : Ymd) : ℕ → Ymd
  | 0 => x
  | n + 1 => subDays (predDay x) n

/-- The date `k` days later. -/
def addDays (x : Ymd) : ℕ → Ymd
  | 0 => x
  | n + 1 => addDays (succDay x) n

lemma monthLen_pos (y m : ℤ) : 1 ≤ monthLen y m := by
  rw [monthLen]
  split_ifs <;> omega

lemma monthLen_le (y m : ℤ) : monthLen y m ≤ 31 := by
  rw [monthLen]
  split_ifs <;> omega

lemma validYmd_predDay (x : Ymd) (h : ValidYmd x) : ValidYmd (predDay x) := by
  obtain ⟨h1, h2, h3, h4⟩ := h
  rw [predDay]
  split_ifs with hd hm
  · refine ⟨?_, ?_, ?_, ?_⟩ <;> dsimp only <;> omega
  · refine ⟨?_, ?_, ?_, ?_⟩ <;> dsimp only
    · omega
    · omega
    · exact monthLen_pos _ _
    · exact le_refl _
  · refine ⟨?_, ?_, ?_, ?_⟩ <;> dsimp only
    · omega
    · omega
    · omega
    · rw [monthLen]; norm_num

lemma validYmd_succDay (x : Ymd) (h : ValidYmd x) : ValidYmd (succDay x) := by
  obtain ⟨h1, h2, h3, h4⟩ := h
  rw [succDay]
  split_ifs with hd hm
  · refine ⟨?_, ?_, ?_, ?_⟩ <;> dsimp only <;> omega
  · refine ⟨?_, ?_, ?_, ?_⟩ <;> dsimp only
    · omega
    · omega
    · omega
    · exact monthLen_pos _ _
  · refine ⟨?_, ?_, ?_, ?_⟩ <;> dsimp only
    · omega
    · omega
    · omega
    · rw [monthLen]; norm_num

lemma daysBeforeMonth_succ (y m : ℤ) (h1 : 1 ≤ m) (h2 : m ≤ 11) :
    daysBeforeMonth y (m + 1) = daysBeforeMonth y m + monthLen y m := by
  have hcase : m = 1 ∨ m = 2 ∨ m = 3 ∨ m = 4 ∨ m = 5 ∨ m = 6 ∨ m = 7 ∨ m = 8
      ∨ m = 9 ∨ m = 10 ∨ m = 11 := by omega
  cases hL : isLeap y <;>
    rcases hcase with h | h | h | h | h | h | h | h | h | h | h <;>
    subst h <;>
    simp [daysBeforeMonth, monthLen, hL]

lemma leapsBefore_succ (y : ℤ) :
    leapsBefore (y + 1) = leapsBefore y + (if isLeap y then 1 else 0) := by
  rw [leapsBefore, leapsBefore, isLeap]
  have h4 : y % 4 = 0 ∨ ¬ y % 4 = 0 := by omega
  have h100 : y % 100 = 0 ∨ ¬ y % 100 = 0 := by omega
  have h400 : y % 400 = 0 ∨ ¬ y % 400 = 0 := by omega
  rcases h4 with h4 | h4 <;> rcases h100 with h100 | h100 <;>
    rcases h400 with h400 | h400 <;>
    simp only [h4, h100, h400, beq_iff_eq, bne, decide_eq_true_eq] <;>
    norm_num <;> omega

lemma daysBeforeYear_succ (y : ℤ) :
    daysBeforeYear (y + 1) = daysBeforeYear y + 365 + (if isLeap y then 1 else 0) := by
  rw [daysBeforeYear, daysBeforeYear, leapsBefore_succ]
  ring

lemma dayNumber_predDay (x : Ymd) (h : ValidYmd x) :
    dayNumber (predDay x) = dayNumber x - 1 := by
  obtain ⟨h1, h2, h3, h4⟩ := h
  rw [predDay]
  split_ifs with hd hm
  · rw [dayNumber, dayNumber]
    dsimp only
    ring
  · have hd1 : x.d = 1 := by omega
    rw [dayNumber, dayNumber]
    dsimp only
    rw [show x.m = (x.m - 1) + 1 from by ring, daysBeforeMonth_succ x.y (x.m - 1)
      (by omega) (by omega)]
    rw [hd1]
    ring_nf
  · have hd1 : x.d = 1 := by omega
    have hm1 : x.m = 1 := by omega
    rw [dayNumber, dayNumber]
    dsimp only
    rw [show x.y = (x.y - 1) + 1 from by ring, daysBeforeYear_succ (x.y - 1)]
    rw [hd1, hm1]
    cases hL : isLeap (x.y - 1) <;>
      simp [daysBeforeMonth, hL] <;> ring

lemma predDay_succDay (x : Ymd) (h : ValidYmd x) : predDay (succDay x) = x := by
  obtain ⟨yy, mm, dd⟩ := x
  obtain ⟨h1, h2, h3, h4⟩ := h
  dsimp only at h1 h2 h3 h4
  rw [succDay]
  dsimp only
  split_ifs with hd hm
  · rw [predDay]
    dsimp only
    rw [if_pos (by omega)]
    rw [show dd + 1 - 1 = dd from by ring]
  · rw [predDay]
    dsimp only
    rw [if_neg (by omega), if_pos (by omega)]
    rw [show mm + 1 - 1 = mm from by ring,
      show monthLen yy mm = dd from by omega]
  · rw [predDay]
    dsimp only
    rw [if_neg (by omega), if_neg (by omega)]
    rw [show yy + 1 - 1 = yy from by ring]
    have hm12 : mm = 12 := by omega
    have hd31 : dd = 31 := by
      have hlen : monthLen yy mm = 31 := by rw [hm12, monthLen]; norm_num
      omega
    rw [hm12, hd31]

lemma dayNumber_succDay (x : Ymd) (h : ValidYmd x) :
    dayNumber (succDay x) = dayNumber x + 1 := by
  have h2 := dayNumber_predDay (succDay x) (validYmd_succDay x h)
  rw [predDay_succDay x h] at h2
  omega

lemma validYmd_subDays (x : Ymd) (h : ValidYmd x) (k : ℕ) :
    ValidYmd (subDays x k) := by
  induction k generalizing x with
  | zero => exact h
  | succ n ih => exact ih (predDay x) (validYmd_predDay x h)

lemma dayNumber_subDays (x : Ymd) (h : ValidYmd x) (k : ℕ) :
    dayNumber (subDays x k) = dayNumber x - k := by
  induction k generalizing x with
  | zero => simp [subDays]
  | succ n ih =>
    rw [subDays, ih (predDay x) (validYmd_predDay x h),
      dayNumber_predDay x h]
    push_cast
    ring

lemma validYmd_addDays (x : Ymd) (h : ValidYmd x) (k : ℕ) :
    ValidYmd (addDays x k) := by
  induction k generalizing x with
  | zero => exact h
  | succ n ih => exact ih (succDay x) (validYmd_succDay x h)

lemma dayNumber_addDays (x : Ymd) (h : ValidYmd x) (k : ℕ) :
    dayNumber (addDays x k) = dayNumber x + k := by
  induction k generalizing x with
  | zero => simp [addDays]
  | succ n ih =>
    rw [addDays, ih (succDay x) (validYmd_succDay x h),
      dayNumber_succDay x h]
    push_cast
    ring

lemma subDays_predDay_comm (z : Ymd) (n : ℕ) :
    subDays (predDay z) n = predDay (subDays z n) := by
  induction n generalizing z with
  | zero => rfl
  | succ m ih => exact ih (predDay z)

lemma subDays_addDays (x : Ymd) (h : ValidYmd x) (k : ℕ) :
    subDays (addDays x k) k = x := by
  induction k generalizing x with
  | zero => rfl
  | succ n ih =>
    show subDays (predDay (addDays (succDay x) n)) n = x
    rw [subDays_predDay_comm, ih (succDay x) (validYmd_succDay x h),
      predDay_succDay x h]

/-- Two-digit zero padding, as in an ISO date. -/
def pad2 (n : ℤ) : String :=
  if n < 10 then "0" ++ toString n else toString n

/-- Four-digit zero padding for the year of `toISOString`. -/
def pad4 (n : ℤ) : String :=
  if n < 10 then "000" ++ toString n
  else if n < 100 then "00" ++ toString n
  else if n < 1000 then "0" ++ toString n
  else toString n

/-- Render a date as the `YYYY-MM-DD` slice of `toISOString`. -/
def fmtYmd (x : Ymd) : String :=
  pad4 x.y ++ "-" ++ pad2 x.m ++ "-" ++ pad2 x.d

/-- Parse `dateStr.split('-').map(Number)` into year, month, day.
JS would build an Invalid Date from anything else (and then throw in
`toISOString`); that case is modelled as `none`. -/
def parseYmd (s : String) : Option Ymd :=
  match jsSplit s '-' with
  | [ys, ms, ds] =>
    match jsNumber ys, jsNumber ms, jsNumber ds with
    | .fin yq, .fin mq, .fin dq =>
      some ⟨yq.num / yq.den, mq.num / mq.den, dq.num / dq.den⟩
    | _, _, _ => none
  | _ => none

/-- Source (site.js `getWeekSunday`): parse the date, subtract
`getDay()` days (0 = Sunday), format the result. -/
def getWeekSunday (s : String) : String :=
  match parseYmd s with
  | some x => fmtYmd (subDays x (dowOf x).toNat)
  | none => "Invalid Date"

/-- English weekday name, 0 = Sunday (`toLocaleDateString` long form). -/
def weekdayName (i : ℤ) : String :=
  if i = 0 then "Sunday" else if i = 1 then "Monday"
  else if i = 2 then "Tuesday" else if i = 3 then "Wednesday"
  else if i = 4 then "Thursday" else if i = 5 then "Friday" else "Saturday"

/-- English month name, 1 = January. -/
def monthName (m : ℤ) : String :=
  if m = 1 then "January" else if m = 2 then "February"
  else if m = 3 then "March" else if m = 4 then "April"
  else if m = 5 then "May" else if m = 6 then "June"
  else if m = 7 then "July" else if m = 8 then "August"
  else if m = 9 then "September" else if m = 10 then "October"
  else if m = 11 then "November" else "December"

/-- Source (site.js `formatDateLabel`): the en-US long date string,
e.g. "Saturday, June 14, 2025". -/
def formatDateLabel (iso : String) : String :=
  match parseYmd iso with
  | some x =>
    weekdayName (dowOf x) ++ ", " ++ monthName x.m ++ " "
      ++ toString x.d ++ ", " ++ toString x.y
  | none => "Invalid Date"

/-! ### Weather resolution (site.js `fetchWeather` / `formatWeather`)

The network is an oracle mapping the request parameters to the (parsed)
provider payload, `none` standing for any failure (non-2xx status,
missing data point, thrown exception).  `fetchWeather` returns the
resolved string (or `none`), the updated session cache, and how many
network calls were issued (0 or 1). -/

/-- Fields of the provider's weather data point that are read. -/
structure WeatherData where
  temp : ℚ
  description : String
  windSpeed : ℚ
  windDeg : Option ℚ
deriving Repr, DecidableEq

/-- Capitalize the first character (JS `charAt(0).toUpperCase() + slice(1)`). -/
def capitalize (s : String) : String :=
  match s.data with
  | [] => ""
  | c :: rest => String.mk (c.toUpper :: rest)

/-- Source (site.js `degreesToCardinal`); wind direction is a degree
value in `[0, 360]` per the provider contract. -/
def degreesToCardinal (deg : Option ℚ) : String :=
  match deg with
  | none => ""
  | some d =>
    ["N", "NE", "E", "SE", "S", "SW", "W", "NW"].getD
      ((jsRound (d / 45)).toNat % 8) ""

/-- Source (site.js `formatWeather`):
`${temp}°F · ${cap} · Wind ${dir} ${wind}mph`. -/
def formatWeather (w : WeatherData) : String :=
  toString (jsRound w.temp) ++ "°F · " ++ capitalize w.description
    ++ " · Wind " ++ degreesToCardinal w.windDeg ++ " "
    ++ toString (jsRound w.windSpeed) ++ "mph"

lemma formatWeather_data_ne (w : WeatherData) : (formatWeather w).data ≠ [] := by
  intro h2
  simp only [formatWeather, String.data_append] at h2
  rcases List.append_eq_nil.mp h2 with ⟨h3, -⟩
  rcases List.append_eq_nil.mp h3 with ⟨h4, -⟩
  rcases List.append_eq_nil.mp h4 with ⟨h5, -⟩
  rcases List.append_eq_nil.mp h5 with ⟨h6, -⟩
  rcases List.append_eq_nil.mp h6 with ⟨-, h7⟩
  cases h7

lemma formatWeather_ne_empty (w : WeatherData) : formatWeather w ≠ "" := by
  intro h
  exact formatWeather_data_ne w (h ▸ rfl)

/-- Client configuration: is a weather API key configured. -/
structure WeatherEnv where
  hasKey : Bool
deriving Repr, DecidableEq

/-- Network oracle: latitude, longitude, date, time to parsed payload. -/
abbrev WeatherOracle := ℚ → ℚ → String → Option String → Option WeatherData

/-- The session weather cache (`weatherCache` object). -/
abbrev WCache := List (String × String)

def cacheLookup : WCache → String → Option String
  | [], _ => none
  | (k, v) :: rest, key => if k = key then some v else cacheLookup rest key

def cacheInsert : WCache → String → String → WCache
  | [], key, v => [(key, v)]
  | (k, w) :: rest, key, v =>
    if k = key then (key, v) :: rest else (k, w) :: cacheInsert rest key v

/-- Cache key: date plus lat/lng rounded to one decimal place,
`${date}-${Math.round(lat*10)}-${Math.round(lng*10)}`. -/
def weatherKey (date : String) (lat lng : ℚ) : String :=
  date ++ "-" ++ toString (jsRound (lat * 10)) ++ "-"
    ++ toString (jsRound (lng * 10))

/-- The miss path: one network call; a successful payload is formatted
and cached, any failure resolves to `null` without caching. -/
def fetchNetwork (oracle : WeatherOracle) (cache : WCache) (key : String)
    (date : String) (timeStr : Option String) (lat lng : ℚ) :
    Option String × WCache × ℕ :=
  match oracle lat lng date timeStr with
  | some w => (some (formatWeather w), cacheInsert cache key (formatWeather w), 1)
  | none => (none, cache, 1)

/-- Source (site.js `fetchWeather`): no key resolves to `null` at once;
a truthy cached string short-circuits the network (JS truthiness, so a
hypothetical empty cached string would not); otherwise one fetch. -/
def fetchWeather (env : WeatherEnv) (oracle : WeatherOracle) (cache : WCache)
    (date : String) (timeStr : Option String) (lat lng : ℚ) :
    Option String × WCache × ℕ :=
  if env.hasKey = false then (none, cache, 0)
  else
    let key := weatherKey date lat lng
    match cacheLookup cache key with
    | some v =>
      if v.data = [] then fetchNetwork oracle cache key date timeStr lat lng
      else (some v, cache, 0)
    | none => fetchNetwork oracle cache key date timeStr lat lng

/-- Two successive weather resolutions threading the cache; returns
both results, the final cache and the total number of network calls. -/
def twoFetches (env : WeatherEnv) (oracle : WeatherOracle) (c₀ : WCache)
    (date : String) (t₁ : Option String) (lat₁ lng₁ : ℚ)
    (t₂ : Option String) (lat₂ lng₂ : ℚ) :
    Option String × Option String × WCache × ℕ :=
  let r₁ := fetchWeather env oracle c₀ date t₁ lat₁ lng₁
  let r₂ := fetchWeather env oracle r₁.2.1 date t₂ lat₂ lng₂
  (r₁.1, r₂.1, r₂.2.1, r₁.2.2 + r₂.2.2)

lemma cacheLookup_insert (c : WCache) (key v : String) :
    cacheLookup (cacheInsert c key v) key = some v := by
  induction c with
  | nil => simp [cacheInsert, cacheLookup]
  | cons kv rest ih =>
    obtain ⟨k, w⟩ := kv
    by_cases hk : k = key
    · simp [cacheInsert, cacheLookup, hk]
    · simp [cacheInsert, cacheLookup, hk, ih]

/-- C7 counterexample: with a key configured, an empty session cache
and a failing provider, two resolution requests with the same date and
identical coordinates (hence equal after rounding to one decimal)
issue two network calls — more than the claimed "at most one" — and
the second request resolves to null, not to a cached string (a failed
fetch is never cached, so the second request fetches again). -/
theorem weather_cache_two_calls_cex :
    (twoFetches ⟨true⟩ (fun _ _ _ _ => none) [] "2025-06-14"
        (some "05:47") 0 0 (some "05:47") 0 0).2.2.2 = 2
    ∧ ¬ ((twoFetches ⟨true⟩ (fun _ _ _ _ => none) [] "2025-06-14"
        (some "05:47") 0 0 (some "05:47") 0 0).2.2.2 ≤ 1)
    ∧ (twoFetches ⟨true⟩ (fun _ _ _ _ => none) [] "2025-06-14"
        (some "05:47") 0 0 (some "05:47") 0 0).2.1 = none := by
  refine ⟨?_, ?_, ?_⟩ <;>
    simp [twoFetches, fetchWeather, fetchNetwork, cacheLookup]

/-- C7 (amended): weather cache idempotence holds for requests that can
be served: with no API key no network call is ever issued; with a key,
if the cache has no entry for the composite key (date plus lat/lng
rounded to one decimal place) and the first request's network call
succeeds, then the pair of requests issues exactly one network call and
the second request returns exactly the cached formatted string; if the
key is already cached (non-empty), both requests are served from the
cache with zero network calls and identical results.  When the first
call fails nothing is cached and the second request fetches again (see
the counterexample). -/
theorem weather_cache_idempotent (env : WeatherEnv)
    (oracle : WeatherOracle) (c₀ : WCache) (date : String)
    (t₁ t₂ : Option String) (lat₁ lng₁ lat₂ lng₂ : ℚ)
    (hlat : jsRound (lat₁ * 10) = jsRound (lat₂ * 10))
    (hlng : jsRound (lng₁ * 10) = jsRound (lng₂ * 10)) :
    (env.hasKey = false →
      (twoFetches env oracle c₀ date t₁ lat₁ lng₁ t₂ lat₂ lng₂).2.2.2 = 0)
    ∧ (∀ w, env.hasKey = true →
        cacheLookup c₀ (weatherKey date lat₁ lng₁) = none →
        oracle lat₁ lng₁ date t₁ = some w →
        (twoFetches env oracle c₀ date t₁ lat₁ lng₁ t₂ lat₂ lng₂).2.2.2 = 1
        ∧ (twoFetches env oracle c₀ date t₁ lat₁ lng₁ t₂ lat₂ lng₂).1
            = some (formatWeather w)
        ∧ (twoFetches env oracle c₀ date t₁ lat₁ lng₁ t₂ lat₂ lng₂).2.1
            = some (formatWeather w)
        ∧ cacheLookup
            (twoFetches env oracle c₀ date t₁ lat₁ lng₁ t₂ lat₂ lng₂).2.2.1
            (weatherKey date lat₁ lng₁) = some (formatWeather w))
    ∧ (∀ v, env.hasKey = true → v.data ≠ [] →
        cacheLookup c₀ (weatherKey date lat₁ lng₁) = some v →
        (twoFetches env oracle c₀ date t₁ lat₁ lng₁ t₂ lat₂ lng₂).2.2.2 = 0
        ∧ (twoFetches env oracle c₀ date t₁ lat₁ lng₁ t₂ lat₂ lng₂).1 = some v
        ∧ (twoFetches env oracle c₀ date t₁ lat₁ lng₁ t₂ lat₂ lng₂).2.1
            = some v) := by
  have hkey : weatherKey date lat₂ lng₂ = weatherKey date lat₁ lng₁ := by
    rw [weatherKey, weatherKey, hlat, hlng]
  refine ⟨?_, ?_, ?_⟩
  · intro hk
    simp [twoFetches, fetchWeather, hk]
  · intro w hk hc ho
    have hr₁ : fetchWeather env oracle c₀ date t₁ lat₁ lng₁
        = (some (formatWeather w),
           cacheInsert c₀ (weatherKey date lat₁ lng₁) (formatWeather w), 1) := by
      simp [fetchWeather, hk, hc, fetchNetwork, ho]
    have hr₂ : fetchWeather env oracle
        (cacheInsert c₀ (weatherKey date lat₁ lng₁) (formatWeather w))
        date t₂ lat₂ lng₂
        = (some (formatWeather w),
           cacheInsert c₀ (weatherKey date lat₁ lng₁) (formatWeather w), 0) := by
      simp [fetchWeather, hk, hkey, cacheLookup_insert, formatWeather_data_ne w]
    refine ⟨?_, ?_, ?_, ?_⟩ <;>
      simp [twoFetches, hr₁, hr₂, cacheLookup_insert]
  · intro v hk hv hc
    have hc₂ : cacheLookup c₀ (weatherKey date lat₂ lng₂) = some v := by
      rw [hkey]; exact hc
    have hr₁ : fetchWeather env oracle c₀ date t₁ lat₁ lng₁ = (some v, c₀, 0) := by
      simp [fetchWeather, hk, hc, hv]
    have hr₂ : fetchWeather env oracle c₀ date t₂ lat₂ lng₂ = (some v, c₀, 0) := by
      simp [fetchWeather, hk, hc₂, hv]
    refine ⟨?_, ?_, ?_⟩ <;> simp [twoFetches, hr₁, hr₂]

/-- The sample provider payload used by the weather witness. -/
def sampleWeather : WeatherData := ⟨61, "clear sky", 6, some 225⟩

theorem weather_cache_idempotent_witness :
    (twoFetches ⟨true⟩ (fun _ _ _ _ => some sampleWeather) [] "2025-06-14"
        (some "05:47") 0 0 (some "20:11") 0 0).2.2.2 = 1
    ∧ (twoFetches ⟨true⟩ (fun _ _ _ _ => some sampleWeather) [] "2025-06-14"
        (some "05:47") 0 0 (some "20:11") 0 0).2.1
      = some (formatWeather sampleWeather) :=
  ⟨((weather_cache_idempotent ⟨true⟩ (fun _ _ _ _ => some sampleWeather) []
      "2025-06-14" (some "05:47") (some "20:11") 0 0 0 0 rfl rfl).2.1
      sampleWeather rfl rfl rfl).1,
   ((weather_cache_idempotent ⟨true⟩ (fun _ _ _ _ => some sampleWeather) []
      "2025-06-14" (some "05:47") (some "20:11") 0 0 0 0 rfl rfl).2.1
      sampleWeather rfl rfl rfl).2.2.1⟩

/-! ### Content Processor (site.js `processDays` and init)

Input days come from the aggregator artifact or the demo data; their
images reuse `Img`.  `Math.random`-based fallback ids are abstracted
by an id oracle (a function of date and time).  Weather enrichment
threads the session cache.  `processDays` returns `none` when the JS
code would throw a TypeError, namely when an image has neither a
truthy `tag` nor a `time` (`getTag(undefined)` calls `split` on
`undefined`). -/

/-- Default location, `DEFAULT_LAT` / `DEFAULT_LNG` (San Diego). -/
def DEFAULT_LAT : ℚ := 327157 / 10000

def DEFAULT_LNG : ℚ := -1171611 / 10000

/-- One input day of the content index. -/
structure CDay where
  date : String
  location : Option String := none
  lat : Option ℚ := none
  lng : Option ℚ := none
  isHero : Bool := false
  heroIndex : Option ℕ := none
  images : Option (List Img) := none
deriving Repr, DecidableEq

/-- One processed image: the spread of the input image with `id`,
`tag`, `weather` and `location` filled in. -/
structure PImg where
  id : String
  src : Option String
  typ : Option String
  caption : Option String
  time : Option String
  date : Option String
  tag : String
  weather : String
  location : String
deriving Repr, DecidableEq

/-- One processed day: the spread of the input day plus `label` and
the processed images. -/
structure PDay where
  date : String
  location : Option String
  lat : Option ℚ
  lng : Option ℚ
  isHero : Bool
  heroIndex : Option ℕ
  label : String
  images : List PImg
deriving Repr, DecidableEq

/-- Oracle for the `Math.random`-suffixed fallback id
(`${day.date}-${img.time}-${random 4 chars}`). -/
abbrev IdOracle := String → Option String → String

/-- The tag expression `img.tag || getTag(img.time)`: `none` models the
TypeError that `getTag(undefined)` throws when both `tag` is falsy and
`time` is absent. -/
def imgTagOpt (img : Img) : Option String :=
  if jsTruthy img.tag then some (img.tag.getD "")
  else match img.time with
    | some t => some (getTag t)
    | none => none

/-- The statements `let weather = img.weather;
if (!weather && WEATHER_API_KEY) weather = await fetchWeather(...)`:
the resolved weather value and the updated cache. -/
def resolveWeather (env : WeatherEnv) (oracle : WeatherOracle) (c : WCache)
    (dayDate : String) (time : Option String) (lat lng : ℚ)
    (weather0 : Option String) : Option String × WCache :=
  if !jsTruthy weather0 && env.hasKey then
    let r := fetchWeather env oracle c dayDate time lat lng
    (r.1, r.2.1)
  else (weather0, c)

/-- One image of the `processDays` inner loop: derive the tag (`none`
result = the TypeError thrown by `getTag(undefined)`), resolve
weather through the cache, apply the fallback id and location. -/
def processImage (env : WeatherEnv) (oracle : WeatherOracle) (mkId : IdOracle)
    (dayDate : String) (dayLoc : Option String) (lat lng : ℚ)
    (c : WCache) (img : Img) : Option (PImg × WCache) :=
  match imgTagOpt img with
  | none => none
  | some tag =>
    let fetched :=
      resolveWeather env oracle c dayDate img.time lat lng img.weather
    some ({ id := jsOr img.id (mkId dayDate img.time),
            src := img.src, typ := img.typ, caption := img.caption,
            time := img.time, date := img.date,
            tag := tag,
            weather := jsOr fetched.1 "—",
            location := jsOr dayLoc "San Diego, CA" }, fetched.2)

/-- The inner image loop, threading the weather cache. -/
def processImages (env : WeatherEnv) (oracle : WeatherOracle) (mkId : IdOracle)
    (dayDate : String) (dayLoc : Option String) (lat lng : ℚ) :
    WCache → List Img → Option (List PImg × WCache)
  | c, [] => some ([], c)
  | c, img :: rest =>
    match processImage env oracle mkId dayDate dayLoc lat lng c img with
    | none => none
    | some (p, c') =>
      match processImages env oracle mkId dayDate dayLoc lat lng c' rest with
      | none => none
      | some (ps, c'') => some (p :: ps, c'')

/-- One day of `processDays`: resolve lat/lng (JS `||`, so 0 falls back
to the default), compute the label, process the images. -/
def processDay (env : WeatherEnv) (oracle : WeatherOracle) (mkId : IdOracle)
    (c : WCache) (day : CDay) : Option (PDay × WCache) :=
  let lat := jsOrNum day.lat DEFAULT_LAT
  let lng := jsOrNum day.lng DEFAULT_LNG
  match processImages env oracle mkId day.date day.location lat lng c
      (day.images.getD []) with
  | none => none
  | some (imgs, c') =>
    some ({ date := day.date, location := day.location, lat := day.lat,
            lng := day.lng, isHero := day.isHero, heroIndex := day.heroIndex,
            label := formatDateLabel day.date, images := imgs }, c')

/-- Source (site.js `processDays`): the sequential day loop. -/
def processDays (env : WeatherEnv) (oracle : WeatherOracle) (mkId : IdOracle) :
    WCache → List CDay → Option (List PDay × WCache)
  | c, [] => some ([], c)
  | c, day :: rest =>
    match processDay env oracle mkId c day with
    | none => none
    | some (d, c') =>
      match processDays env oracle mkId c' rest with
      | none => none
      | some (ds, c'') => some (d :: ds, c'')

/-- The init step `DAYS.sort((a, b) => b.date.localeCompare(a.date))`. -/
def sortDaysDesc (days : List PDay) : List PDay :=
  days.mergeSort fun a b => strLe b.date a.date

/-- The init step building the flat navigation sequence:
`FLAT = []; DAYS.forEach(day => day.images.forEach(img => FLAT.push(img)))`. -/
def buildFlat (days : List PDay) : List PImg :=
  days.foldl (fun acc day => day.images.foldl (fun acc2 img => acc2 ++ [img]) acc) []

lemma foldl_push {α : Type} (l acc : List α) :
    l.foldl (fun a x => a ++ [x]) acc = acc ++ l := by
  induction l generalizing acc with
  | nil => simp
  | cons x rest ih => simp [List.foldl_cons, ih]

lemma buildFlat_eq (days : List PDay) :
    buildFlat days = days.flatMap fun d => d.images := by
  have h : ∀ acc, days.foldl
      (fun acc day => day.images.foldl (fun a i => a ++ [i]) acc) acc
      = acc ++ days.flatMap (fun d => d.images) := by
    induction days with
    | nil => intro acc; simp
    | cons d rest ih =>
      intro acc
      rw [List.foldl_cons, foldl_push, ih, List.flatMap_cons, List.append_assoc]
  rw [buildFlat, h]
  rfl

lemma length_flatMap_images (days : List PDay) :
    (days.flatMap fun d => d.images).length
      = (days.map fun d => d.images.length).sum := by
  induction days with
  | nil => rfl
  | cons d rest ih => simp [List.flatMap_cons, ih]

/-- C4: after a successful processing pass, the flat navigation
sequence built by the init step from the sorted day list equals the
concatenation of each day's images in the days' final newest-first
order (so its order is exactly day order then within-day order), its
length is the sum of the days' image counts, and the day list it
iterates is indeed sorted newest-first. -/
theorem flat_navigation_law (env : WeatherEnv) (oracle : WeatherOracle)
    (mkId : IdOracle) (raw : List CDay) (ds : List PDay) (c : WCache)
    (hproc : processDays env oracle mkId [] raw = some (ds, c)) :
    buildFlat (sortDaysDesc ds) = (sortDaysDesc ds).flatMap (fun d => d.images)
    ∧ (buildFlat (sortDaysDesc ds)).length
        = ((sortDaysDesc ds).map fun d => d.images.length).sum
    ∧ ((sortDaysDesc ds).Pairwise fun a b => b.date ≤ a.date) := by
  refine ⟨buildFlat_eq _, ?_, ?_⟩
  · rw [buildFlat_eq, length_flatMap_images]
  · rw [sortDaysDesc]
    have h := @List.sorted_mergeSort _ (fun a b : PDay => strLe b.date a.date)
      (fun a b c hab hbc => strLe_trans hbc hab)
      (fun a b => strLe_total b.date a.date)
      ds
    exact h.imp fun hab => (strLe_iff_le _ _).mp hab

/-- First sample input day of the processor witnesses. -/
def sampleDayA : CDay :=
  { date := "2025-06-14", location := some "Torrey Pines",
    images := some
      [{ src := some "a.jpg", time := some "05:47", tag := some "sunrise",
         weather := some "58F Clear" },
       { src := some "u.jpg", time := some "20:11", tag := some "sunset",
         weather := some "68F Clear" }] }

/-- Second sample input day of the processor witnesses. -/
def sampleDayB : CDay :=
  { date := "2025-06-13", location := some "La Jolla",
    images := some
      [{ src := some "b.jpg", time := some "06:02", tag := some "sunrise",
         weather := some "55F Fog" }] }

/-- The processed result of the two sample days (no API key, fallback
ids from the date). -/
def processedSample : List PDay :=
  [{ date := "2025-06-14", location := some "Torrey Pines", lat := none,
     lng := none, isHero := false, heroIndex := none,
     label := "Saturday, June 14, 2025",
     images :=
       [⟨"2025-06-14", some "a.jpg", none, none, some "05:47", none,
         "sunrise", "58F Clear", "Torrey Pines"⟩,
        ⟨"2025-06-14", some "u.jpg", none, none, some "20:11", none,
         "sunset", "68F Clear", "Torrey Pines"⟩] },
   { date := "2025-06-13", location := some "La Jolla", lat := none,
     lng := none, isHero := false, heroIndex := none,
     label := "Friday, June 13, 2025",
     images :=
       [⟨"2025-06-13", some "b.jpg", none, none, some "06:02", none,
         "sunrise", "55F Fog", "La Jolla"⟩] }]

theorem flat_navigation_law_witness :
    buildFlat (sortDaysDesc processedSample)
      = (sortDaysDesc processedSample).flatMap (fun d => d.images)
    ∧ (buildFlat (sortDaysDesc processedSample)).length
      = ((sortDaysDesc processedSample).map fun d => d.images.length).sum :=
  ⟨(flat_navigation_law ⟨false⟩ (fun _ _ _ _ => none) (fun d _ => d)
      [sampleDayA, sampleDayB] processedSample [] (by decide)).1,
   (flat_navigation_law ⟨false⟩ (fun _ _ _ _ => none) (fun d _ => d)
      [sampleDayA, sampleDayB] processedSample [] (by decide)).2.1⟩

/-! ### The flat-sequence invariant (tag, weather, location) -/

/-- Every cached weather string is a formatted provider payload. -/
def CacheOK (c : WCache) : Prop :=
  ∀ kv ∈ c, ∃ w, kv.2 = formatWeather w

/-- The schema range of an incoming `tag` field: absent, empty, or one
of the two enum values. -/
def TagSchema (i : Img) : Prop :=
  i.tag = none ∨ i.tag = some "" ∨ i.tag = some "sunrise" ∨ i.tag = some "sunset"

instance (i : Img) : Decidable (TagSchema i) := by
  rw [TagSchema]; infer_instance

lemma cacheOK_nil : CacheOK [] := by
  intro kv h
  cases h

lemma cacheInsert_ok (c : WCache) (key v : String) (hc : CacheOK c)
    (hv : ∃ w, v = formatWeather w) : CacheOK (cacheInsert c key v) := by
  induction c with
  | nil =>
    intro kv h
    rcases List.mem_singleton.mp h with rfl
    exact hv
  | cons kw rest ih =>
    obtain ⟨k, w0⟩ := kw
    intro kv h
    rw [cacheInsert] at h
    by_cases hk : k = key
    · rw [if_pos hk] at h
      rcases List.mem_cons.mp h with rfl | h2
      · exact hv
      · exact hc _ (List.mem_cons_of_mem _ h2)
    · rw [if_neg hk] at h
      rcases List.mem_cons.mp h with rfl | h2
      · exact hc _ (List.mem_cons_self _ _)
      · exact ih (fun kv2 hm => hc _ (List.mem_cons_of_mem _ hm)) _ h2

lemma cacheLookup_ok (c : WCache) (key v : String) (hc : CacheOK c)
    (h : cacheLookup c key = some v) : ∃ w, v = formatWeather w := by
  induction c with
  | nil => cases h
  | cons kw rest ih =>
    obtain ⟨k, w0⟩ := kw
    rw [cacheLookup] at h
    by_cases hk : k = key
    · rw [if_pos hk] at h
      injection h with h2
      exact h2 ▸ hc (k, w0) (List.mem_cons_self _ _)
    · rw [if_neg hk] at h
      exact ih (fun kv2 hm => hc _ (List.mem_cons_of_mem _ hm)) h

lemma fetchWeather_ok (env : WeatherEnv) (oracle : WeatherOracle) (c : WCache)
    (date : String) (t : Option String) (lat lng : ℚ) (hc : CacheOK c) :
    CacheOK (fetchWeather env oracle c date t lat lng).2.1
    ∧ ∀ v, (fetchWeather env oracle c date t lat lng).1 = some v →
        ∃ w, v = formatWeather w := by
  rw [fetchWeather]
  by_cases hk : env.hasKey = false
  · simp only [if_pos hk]
    exact ⟨hc, fun v hv => by cases hv⟩
  · simp only [if_neg hk]
    have hnet : CacheOK (fetchNetwork oracle c (weatherKey date lat lng)
          date t lat lng).2.1
        ∧ ∀ v, (fetchNetwork oracle c (weatherKey date lat lng)
            date t lat lng).1 = some v → ∃ w, v = formatWeather w := by
      rw [fetchNetwork]
      cases ho : oracle lat lng date t with
      | none => exact ⟨hc, fun v hv => by cases hv⟩
      | some w =>
        refine ⟨cacheInsert_ok _ _ _ hc ⟨w, rfl⟩, ?_⟩
        intro v hv
        injection hv with hv2
        exact ⟨w, hv2.symm⟩
    cases hl : cacheLookup c (weatherKey date lat lng) with
    | none => exact hnet
    | some v =>
      by_cases hv : v.data = []
      · simp only [if_pos hv]
        exact hnet
      · simp only [if_neg hv]
        refine ⟨hc, ?_⟩
        intro v2 hv2
        injection hv2 with hv3
        exact hv3 ▸ cacheLookup_ok c _ v hc hl

lemma resolveWeather_ok (env : WeatherEnv) (oracle : WeatherOracle) (c : WCache)
    (dayDate : String) (t : Option String) (lat lng : ℚ)
    (weather0 : Option String) (hc : CacheOK c) :
    CacheOK (resolveWeather env oracle c dayDate t lat lng weather0).2
    ∧ ((resolveWeather env oracle c dayDate t lat lng weather0).1 = weather0
       ∨ ∀ v, (resolveWeather env oracle c dayDate t lat lng weather0).1 = some v →
           ∃ w, v = formatWeather w) := by
  rw [resolveWeather]
  by_cases hcond : (!jsTruthy weather0 && env.hasKey) = true
  · simp only [if_pos hcond]
    have h := fetchWeather_ok env oracle c dayDate t lat lng hc
    exact ⟨h.1, Or.inr h.2⟩
  · simp only [if_neg hcond]
    exact ⟨hc, Or.inl (by trivial)⟩

lemma getTag_cases (t : String) : getTag t = "sunrise" ∨ getTag t = "sunset" := by
  rw [getTag]
  by_cases h : jsLt (jsAdd (jsGet ((jsSplit t ':').map jsNumber) 0)
      (jsDiv (jsGet ((jsSplit t ':').map jsNumber) 1) 60)) 12 = true
  · left; simp only [h]; rfl
  · right; simp only [Bool.not_eq_true] at h; simp only [h]; rfl

lemma jsTruthy_some_eq (o : Option String) (h : jsTruthy o = true) :
    o = some (o.getD "") ∧ (o.getD "").data ≠ [] := by
  cases o with
  | none => cases h
  | some s =>
    refine ⟨rfl, ?_⟩
    simp only [jsTruthy, Bool.not_eq_true'] at h
    simpa [Option.getD] using h

lemma data_ne_imp_ne_empty (s : String) (h : s.data ≠ []) : s ≠ "" := by
  intro hEq
  exact h (hEq ▸ rfl)

lemma jsOr_ne_empty (o : Option String) (b : String) (hb : b ≠ "") :
    jsOr o b ≠ "" := by
  rw [jsOr]
  cases h : jsTruthy o
  · simpa using hb
  · exact data_ne_imp_ne_empty _ (jsTruthy_some_eq o h).2

lemma imgTagOpt_good (img : Img) (htag : TagSchema img) (tag : String)
    (h : imgTagOpt img = some tag) : tag = "sunrise" ∨ tag = "sunset" := by
  rw [imgTagOpt] at h
  by_cases ht : jsTruthy img.tag = true
  · rw [if_pos ht] at h
    injection h with h2
    rcases htag with h3 | h3 | h3 | h3 <;> rw [h3] at ht h2
    · cases ht
    · cases ht
    · left; rw [← h2]; rfl
    · right; rw [← h2]; rfl
  · rw [if_neg ht] at h
    cases htime : img.time with
    | none => rw [htime] at h; cases h
    | some t =>
      rw [htime] at h
      injection h with h2
      rw [← h2]
      exact getTag_cases t

lemma processImage_good (env : WeatherEnv) (oracle : WeatherOracle)
    (mkId : IdOracle) (dayDate : String) (dayLoc : Option String)
    (lat lng : ℚ) (c : WCache) (img : Img) (p : PImg) (c' : WCache)
    (hc : CacheOK c) (htag : TagSchema img)
    (h : processImage env oracle mkId dayDate dayLoc lat lng c img
        = some (p, c')) :
    CacheOK c'
    ∧ (p.tag = "sunrise" ∨ p.tag = "sunset")
    ∧ p.weather ≠ "" ∧ p.location ≠ ""
    ∧ (p.weather = "—" ∨ img.weather = some p.weather
       ∨ ∃ w, p.weather = formatWeather w) := by
  rw [processImage] at h
  cases hto : imgTagOpt img with
  | none => rw [hto] at h; cases h
  | some tag =>
    rw [hto] at h
    injection h with h2
    injection h2 with hp hcc
    subst hp
    subst hcc
    have hres := resolveWeather_ok env oracle c dayDate img.time lat lng
      img.weather hc
    dsimp only
    refine ⟨hres.1, imgTagOpt_good img htag tag hto, ?_, ?_, ?_⟩
    · exact jsOr_ne_empty _ _ (by decide)
    · exact jsOr_ne_empty _ _ (by decide)
    · rcases hres.2 with hw | hw
      · rw [hw]
        cases htw : jsTruthy img.weather with
        | false => left; rw [jsOr, htw]; rfl
        | true =>
          right; left
          rw [jsOr, htw]
          exact (jsTruthy_some_eq img.weather htw).1
      · cases hres1 : (resolveWeather env oracle c dayDate img.time lat lng
            img.weather).1 with
        | none => left; rw [jsOr]; rfl
        | some v =>
          obtain ⟨w, hwv⟩ := hw v hres1
          right; right
          refine ⟨w, ?_⟩
          rw [jsOr, show jsTruthy (some v) = true from ?_]
          · simpa using hwv
          · subst hwv
            simpa [jsTruthy] using formatWeather_data_ne w

lemma processImages_good (env : WeatherEnv) (oracle : WeatherOracle)
    (mkId : IdOracle) (dayDate : String) (dayLoc : Option String)
    (lat lng : ℚ) :
    ∀ (imgs : List Img) (c : WCache) (ps : List PImg) (c' : WCache),
      CacheOK c → (∀ i ∈ imgs, TagSchema i) →
      processImages env oracle mkId dayDate dayLoc lat lng c imgs
        = some (ps, c') →
      CacheOK c' ∧ ∀ p ∈ ps,
        (p.tag = "sunrise" ∨ p.tag = "sunset")
        ∧ p.weather ≠ "" ∧ p.location ≠ ""
        ∧ (p.weather = "—" ∨ (∃ i ∈ imgs, i.weather = some p.weather)
           ∨ ∃ w, p.weather = formatWeather w) := by
  intro imgs
  induction imgs with
  | nil =>
    intro c ps c' hc _ h
    rw [processImages] at h
    injection h with h2
    injection h2 with hps hcc
    subst hcc
    exact ⟨hc, by rw [← hps]; intro p hp; cases hp⟩
  | cons img rest ih =>
    intro c ps c' hc hschema h
    rw [processImages] at h
    cases hpi : processImage env oracle mkId dayDate dayLoc lat lng c img with
    | none => rw [hpi] at h; cases h
    | some pc =>
      obtain ⟨p₁, c₁⟩ := pc
      rw [hpi] at h
      dsimp only at h
      cases hrest : processImages env oracle mkId dayDate dayLoc lat lng c₁
          rest with
      | none => rw [hrest] at h; cases h
      | some psc =>
        obtain ⟨ps₂, c₂⟩ := psc
        rw [hrest] at h
        injection h with h2
        injection h2 with hps hcc
        subst hcc
        have h1 := processImage_good env oracle mkId dayDate dayLoc lat lng c
          img p₁ c₁ hc (hschema img (List.mem_cons_self _ _)) hpi
        have h3 := ih c₁ ps₂ c₂ h1.1
          (fun i hi => hschema i (List.mem_cons_of_mem _ hi)) hrest
        refine ⟨h3.1, ?_⟩
        intro p hp
        rw [← hps] at hp
        rcases List.mem_cons.mp hp with rfl | hp2
        · refine ⟨h1.2.1, h1.2.2.1, h1.2.2.2.1, ?_⟩
          rcases h1.2.2.2.2 with hw | hw | hw
          · exact Or.inl hw
          · exact Or.inr (Or.inl ⟨img, List.mem_cons_self _ _, hw⟩)
          · exact Or.inr (Or.inr hw)
        · have h4 := h3.2 p hp2
          refine ⟨h4.1, h4.2.1, h4.2.2.1, ?_⟩
          rcases h4.2.2.2 with hw | hw | hw
          · exact Or.inl hw
          · obtain ⟨i, hi, hiw⟩ := hw
            exact Or.inr (Or.inl ⟨i, List.mem_cons_of_mem _ hi, hiw⟩)
          · exact Or.inr (Or.inr hw)

lemma processDay_good (env : WeatherEnv) (oracle : WeatherOracle)
    (mkId : IdOracle) (c : WCache) (day : CDay) (pd : PDay) (c' : WCache)
    (hc : CacheOK c) (hschema : ∀ i ∈ day.images.getD [], TagSchema i)
    (h : processDay env oracle mkId c day = some (pd, c')) :
    CacheOK c' ∧ ∀ p ∈ pd.images,
      (p.tag = "sunrise" ∨ p.tag = "sunset")
      ∧ p.weather ≠ "" ∧ p.location ≠ ""
      ∧ (p.weather = "—" ∨ (∃ i ∈ day.images.getD [], i.weather = some p.weather)
         ∨ ∃ w, p.weather = formatWeather w) := by
  rw [processDay] at h
  cases hpi : processImages env oracle mkId day.date day.location
      (jsOrNum day.lat DEFAULT_LAT) (jsOrNum day.lng DEFAULT_LNG) c
      (day.images.getD []) with
  | none => rw [hpi] at h; cases h
  | some ic =>
    obtain ⟨imgs, c₂⟩ := ic
    rw [hpi] at h
    injection h with h2
    injection h2 with hpd hcc
    subst hcc
    have h3 := processImages_good env oracle mkId day.date day.location
      (jsOrNum day.lat DEFAULT_LAT) (jsOrNum day.lng DEFAULT_LNG)
      (day.images.getD []) c imgs c₂ hc hschema hpi
    refine ⟨h3.1, ?_⟩
    intro p hp
    rw [← hpd] at hp
    exact h3.2 p hp

lemma processDays_good (env : WeatherEnv) (oracle : WeatherOracle)
    (mkId : IdOracle) :
    ∀ (days : List CDay) (c : WCache) (ds : List PDay) (c' : WCache),
      CacheOK c →
      (∀ day ∈ days, ∀ i ∈ day.images.getD [], TagSchema i) →
      processDays env oracle mkId c days = some (ds, c') →
      CacheOK c' ∧ ∀ d ∈ ds, ∀ p ∈ d.images,
        (p.tag = "sunrise" ∨ p.tag = "sunset")
        ∧ p.weather ≠ "" ∧ p.location ≠ ""
        ∧ (p.weather = "—"
           ∨ (∃ day ∈ days, ∃ i ∈ day.images.getD [], i.weather = some p.weather)
           ∨ ∃ w, p.weather = formatWeather w) := by
  intro days
  induction days with
  | nil =>
    intro c ds c' hc _ h
    rw [processDays] at h
    injection h with h2
    injection h2 with hds hcc
    subst hcc
    exact ⟨hc, by rw [← hds]; intro d hd; cases hd⟩
  | cons day rest ih =>
    intro c ds c' hc hschema h
    rw [processDays] at h
    cases hpd : processDay env oracle mkId c day with
    | none => rw [hpd] at h; cases h
    | some dc =>
      obtain ⟨d₁, c₁⟩ := dc
      rw [hpd] at h
      dsimp only at h
      cases hrest : processDays env oracle mkId c₁ rest with
      | none => rw [hrest] at h; cases h
      | some dsc =>
        obtain ⟨ds₂, c₂⟩ := dsc
        rw [hrest] at h
        injection h with h2
        injection h2 with hds hcc
        subst hcc
        have h1 := processDay_good env oracle mkId c day d₁ c₁ hc
          (hschema day (List.mem_cons_self _ _)) hpd
        have h3 := ih c₁ ds₂ c₂ h1.1
          (fun dy hdy => hschema dy (List.mem_cons_of_mem _ hdy)) hrest
        refine ⟨h3.1, ?_⟩
        intro d hd
        rw [← hds] at hd
        rcases List.mem_cons.mp hd with rfl | hd2
        · intro p hp
          have h4 := h1.2 p hp
          refine ⟨h4.1, h4.2.1, h4.2.2.1, ?_⟩
          rcases h4.2.2.2 with hw | hw | hw
          · exact Or.inl hw
          · obtain ⟨i, hi, hiw⟩ := hw
            exact Or.inr (Or.inl ⟨day, List.mem_cons_self _ _, i, hi, hiw⟩)
          · exact Or.inr (Or.inr hw)
        · intro p hp
          have h4 := h3.2 d hd2 p hp
          refine ⟨h4.1, h4.2.1, h4.2.2.1, ?_⟩
          rcases h4.2.2.2 with hw | hw | hw
          · exact Or.inl hw
          · obtain ⟨dy, hdy, i, hi, hiw⟩ := hw
            exact Or.inr (Or.inl ⟨dy, List.mem_cons_of_mem _ hdy, i, hi, hiw⟩)
          · exact Or.inr (Or.inr hw)

lemma imgTagOpt_total (img : Img) (ht : img.time.isSome = true) :
    (imgTagOpt img).isSome = true := by
  rw [imgTagOpt]
  by_cases htag : jsTruthy img.tag = true
  · rw [if_pos htag]; rfl
  · rw [if_neg htag]
    cases htime : img.time with
    | none => rw [htime] at ht; cases ht
    | some t => rfl

lemma processImage_total (env : WeatherEnv) (oracle : WeatherOracle)
    (mkId : IdOracle) (dayDate : String) (dayLoc : Option String)
    (lat lng : ℚ) (c : WCache) (img : Img) (ht : img.time.isSome = true) :
    (processImage env oracle mkId dayDate dayLoc lat lng c img).isSome = true := by
  rw [processImage]
  cases hto : imgTagOpt img with
  | none =>
    have h2 := imgTagOpt_total img ht
    rw [hto] at h2
    cases h2
  | some tag => rfl

lemma processImages_total (env : WeatherEnv) (oracle : WeatherOracle)
    (mkId : IdOracle) (dayDate : String) (dayLoc : Option String)
    (lat lng : ℚ) :
    ∀ (imgs : List Img) (c : WCache),
      (∀ i ∈ imgs, i.time.isSome = true) →
      (processImages env oracle mkId dayDate dayLoc lat lng c imgs).isSome
        = true := by
  intro imgs
  induction imgs with
  | nil => intro c _; rfl
  | cons img rest ih =>
    intro c ht
    rw [processImages]
    cases hpi : processImage env oracle mkId dayDate dayLoc lat lng c img with
    | none =>
      exact absurd (processImage_total env oracle mkId dayDate dayLoc lat lng c
        img (ht img (List.mem_cons_self _ _))) (by simp [hpi])
    | some pc =>
      obtain ⟨p₁, c₁⟩ := pc
      dsimp only
      cases hrest : processImages env oracle mkId dayDate dayLoc lat lng c₁
          rest with
      | none =>
        exact absurd (ih c₁ (fun i hi => ht i (List.mem_cons_of_mem _ hi)))
          (by simp [hrest])
      | some psc => rfl

lemma processDay_total (env : WeatherEnv) (oracle : WeatherOracle)
    (mkId : IdOracle) (c : WCache) (day : CDay)
    (ht : ∀ i ∈ day.images.getD [], i.time.isSome = true) :
    (processDay env oracle mkId c day).isSome = true := by
  rw [processDay]
  cases hpi : processImages env oracle mkId day.date day.location
      (jsOrNum day.lat DEFAULT_LAT) (jsOrNum day.lng DEFAULT_LNG) c
      (day.images.getD []) with
  | none =>
    exact absurd (processImages_total env oracle mkId day.date day.location
      (jsOrNum day.lat DEFAULT_LAT) (jsOrNum day.lng DEFAULT_LNG)
      (day.images.getD []) c ht) (by simp [hpi])
  | some ic =>
    obtain ⟨imgs, c₂⟩ := ic
    rfl

lemma processDays_total (env : WeatherEnv) (oracle : WeatherOracle)
    (mkId : IdOracle) :
    ∀ (days : List CDay) (c : WCache),
      (∀ day ∈ days, ∀ i ∈ day.images.getD [], i.time.isSome = true) →
      (processDays env oracle mkId c days).isSome = true := by
  intro days
  induction days with
  | nil => intro c _; rfl
  | cons day rest ih =>
    intro c ht
    rw [processDays]
    cases hpd : processDay env oracle mkId c day with
    | none =>
      exact absurd (processDay_total env oracle mkId c day
        (ht day (List.mem_cons_self _ _))) (by simp [hpd])
    | some dc =>
      obtain ⟨d₁, c₁⟩ := dc
      dsimp only
      cases hrest : processDays env oracle mkId c₁ rest with
      | none =>
        exact absurd (ih c₁ (fun dy hdy => ht dy (List.mem_cons_of_mem _ hdy)))
          (by simp [hrest])
      | some dsc => rfl

/-- C6 counterexample: an input image that carries a `time` but also an
arbitrary non-enum `tag` string "x" reaches the flat navigation
sequence with tag "x", which is neither "sunrise" nor "sunset" — the
processor keeps any truthy provided tag unchanged. -/
def junkTagDay : CDay :=
  { date := "2025-06-14",
    images := some
      [{ src := some "a.jpg", time := some "05:47",
         tag := some "x", weather := some "58F" }] }

/-- The processed form of `junkTagDay` (no API key). -/
def junkProcessed : List PDay :=
  [{ date := "2025-06-14", location := none, lat := none, lng := none,
     isHero := false, heroIndex := none,
     label := "Saturday, June 14, 2025",
     images :=
       [⟨"2025-06-14", some "a.jpg", none, none, some "05:47", none,
         "x", "58F", "San Diego, CA"⟩] }]

/-- The junk-tagged image as it appears in the flat sequence. -/
def junkFlatImg : PImg :=
  ⟨"2025-06-14", some "a.jpg", none, none, some "05:47", none,
   "x", "58F", "San Diego, CA"⟩

theorem flat_image_enum_cex :
    processDays ⟨false⟩ (fun _ _ _ _ => none) (fun d _ => d) [] [junkTagDay]
      = some (junkProcessed, [])
    ∧ (∀ i ∈ junkTagDay.images.getD [], i.time.isSome = true)
    ∧ junkFlatImg ∈ buildFlat (sortDaysDesc junkProcessed)
    ∧ ¬ (junkFlatImg.tag = "sunrise" ∨ junkFlatImg.tag = "sunset") := by
  refine ⟨by decide, by decide, ?_, by decide⟩
  rw [buildFlat_eq]
  simp [sortDaysDesc, junkProcessed, junkFlatImg]

/-- C6 (amended): for every input day list whose images all carry a
`time` and whose provided tags lie in the schema range (absent, empty,
or one of the enum values — required, since the processor keeps any
truthy provided tag verbatim), processing succeeds, and every image in
the flat navigation sequence has tag "sunrise" or "sunset" (hence
non-empty), a non-empty weather string that is the provided one, a
formatted provider payload, or the placeholder dash for unresolved
weather, and a non-empty location. -/
theorem flat_image_invariant (env : WeatherEnv) (oracle : WeatherOracle)
    (mkId : IdOracle) (raw : List CDay)
    (htag : ∀ day ∈ raw, ∀ i ∈ day.images.getD [], TagSchema i)
    (htime : ∀ day ∈ raw, ∀ i ∈ day.images.getD [], i.time.isSome = true) :
    (processDays env oracle mkId [] raw).isSome = true
    ∧ ∀ ds c, processDays env oracle mkId [] raw = some (ds, c) →
        ∀ p ∈ buildFlat (sortDaysDesc ds),
          (p.tag = "sunrise" ∨ p.tag = "sunset") ∧ p.tag ≠ ""
          ∧ p.weather ≠ ""
          ∧ (p.weather = "—"
             ∨ (∃ day ∈ raw, ∃ i ∈ day.images.getD [],
                 i.weather = some p.weather)
             ∨ ∃ w, p.weather = formatWeather w)
          ∧ p.location ≠ "" := by
  refine ⟨processDays_total env oracle mkId raw [] htime, ?_⟩
  intro ds c hproc p hp
  rw [buildFlat_eq] at hp
  obtain ⟨d, hd, hpd⟩ := List.mem_flatMap.mp hp
  rw [sortDaysDesc, List.mem_mergeSort] at hd
  have h := (processDays_good env oracle mkId raw [] ds c cacheOK_nil htag
    hproc).2 d hd p hpd
  have htagp := h.1
  refine ⟨htagp, ?_, h.2.1, h.2.2.2, h.2.2.1⟩
  rcases htagp with h2 | h2 <;> rw [h2] <;> decide

/-- The first processed sample image as it appears in the flat sequence. -/
def sampleFlatImg : PImg :=
  ⟨"2025-06-14", some "a.jpg", none, none, some "05:47", none,
   "sunrise", "58F Clear", "Torrey Pines"⟩

theorem flat_image_invariant_witness :
    (processDays ⟨false⟩ (fun _ _ _ _ => none) (fun d _ => d) []
        [sampleDayA, sampleDayB]).isSome = true
    ∧ ((sampleFlatImg.tag = "sunrise" ∨ sampleFlatImg.tag = "sunset")
       ∧ sampleFlatImg.tag ≠ "" ∧ sampleFlatImg.weather ≠ ""
       ∧ (sampleFlatImg.weather = "—"
          ∨ (∃ day ∈ [sampleDayA, sampleDayB], ∃ i ∈ day.images.getD [],
              i.weather = some sampleFlatImg.weather)
          ∨ ∃ w, sampleFlatImg.weather = formatWeather w)
       ∧ sampleFlatImg.location ≠ "") :=
  ⟨(flat_image_invariant ⟨false⟩ (fun _ _ _ _ => none) (fun d _ => d)
      [sampleDayA, sampleDayB] (by decide) (by decide)).1,
   (flat_image_invariant ⟨false⟩ (fun _ _ _ _ => none) (fun d _ => d)
      [sampleDayA, sampleDayB] (by decide) (by decide)).2 processedSample []
      (by decide) sampleFlatImg (by
        have hsorted : sortDaysDesc processedSample = processedSample :=
          List.mergeSort_of_sorted (by decide)
        rw [buildFlat_eq, hsorted]
        decide)⟩

/-! ### Week grouping (site.js `groupByWeek`) -/

/-- One week bucket: `{ sunday, days }`. -/
structure Week where
  sunday : String
  days : List PDay
deriving Repr, DecidableEq

/-- Create-or-append on the insertion-ordered bucket list: models
`if (!map[key]) { map[key] = {sunday: key, days: []}; weeks.push(...) }`
followed by `map[key].days.push(day)`. -/
def addToWeek : List Week → String → PDay → List Week
  | [], key, day => [⟨key, [day]⟩]
  | w :: rest, key, day =>
    if w.sunday = key then { w with days := w.days ++ [day] } :: rest
    else w :: addToWeek rest key day

/-- The bucket key of a day. -/
def weekKey (d : PDay) : String :=
  getWeekSunday d.date

/-- Source (site.js `groupByWeek`): group by week-Sunday in first-seen
order, then `weeks.sort((a, b) => b.sunday.localeCompare(a.sunday))`. -/
def groupByWeek (days : List PDay) : List Week :=
  (days.foldl (fun ws day => addToWeek ws (weekKey day) day) []).mergeSort
    fun a b => strLe b.sunday a.sunday

/-- First bucket with the given key, i.e. `map[k]`. -/
def lookupWeek (ws : List Week) (k : String) : Option Week :=
  ws.find? fun w => w.sunday == k

lemma lookupWeek_cons (x : Week) (l : List Week) (k : String) :
    lookupWeek (x :: l) k = if x.sunday = k then some x else lookupWeek l k := by
  simp only [lookupWeek, List.find?_cons]
  by_cases h : x.sunday = k
  · simp [h]
  · have hb : (x.sunday == k) = false := beq_eq_false_iff_ne.mpr h
    simp [hb, h]

lemma lookupWeek_addToWeek (ws : List Week) (key : String) (day : PDay)
    (k : String) :
    lookupWeek (addToWeek ws key day) k =
      if k = key then
        match lookupWeek ws key with
        | some w => some { w with days := w.days ++ [day] }
        | none => some ⟨key, [day]⟩
      else lookupWeek ws k := by
  induction ws with
  | nil =>
    by_cases hk : k = key
    · subst hk
      simp [addToWeek, lookupWeek_cons, lookupWeek]
    · have hk2 : ¬ key = k := fun h => hk h.symm
      simp [addToWeek, lookupWeek_cons, lookupWeek, hk, hk2]
  | cons w rest ih =>
    by_cases hw : w.sunday = key
    · have ha : addToWeek (w :: rest) key day
          = { w with days := w.days ++ [day] } :: rest := by
        simp [addToWeek, hw]
      rw [ha]
      simp only [lookupWeek_cons]
      by_cases hk : w.sunday = k
      · have hk2 : k = key := hk.symm.trans hw
        simp [hk, hk2, hw]
      · have hk2 : ¬ k = key := fun h => hk (show w.sunday = k from h ▸ hw)
        simp [hk, hk2]
    · have ha : addToWeek (w :: rest) key day
          = w :: addToWeek rest key day := by
        simp [addToWeek, hw]
      rw [ha]
      simp only [lookupWeek_cons]
      by_cases hwk : w.sunday = k
      · have hk2 : ¬ k = key := fun h => hw (hwk.trans h)
        simp [hwk, hk2]
      · simp only [if_neg hwk, if_neg hw, ih]

lemma lookupWeek_groupFold (days : List PDay) (ws : List Week) (k : String) :
    lookupWeek (days.foldl (fun ws d => addToWeek ws (weekKey d) d) ws) k =
      match lookupWeek ws k with
      | some w =>
        some { w with days := w.days ++ days.filter fun d => weekKey d == k }
      | none =>
        match days.find? (fun d => weekKey d == k) with
        | some _ => some ⟨k, days.filter fun d => weekKey d == k⟩
        | none => none := by
  induction days generalizing ws with
  | nil =>
    cases h : lookupWeek ws k with
    | none => simp [h]
    | some w => simp [h]
  | cons d rest ih =>
    rw [List.foldl_cons, ih, lookupWeek_addToWeek]
    by_cases hk : k = weekKey d
    · rw [if_pos hk]
      have hbeq : (weekKey d == k) = true := beq_iff_eq.mpr hk.symm
      rw [List.filter_cons, List.find?_cons, hbeq]
      subst hk
      simp only [if_pos rfl]
      cases h : lookupWeek ws (weekKey d) with
      | none => simp
      | some w => simp
    · rw [if_neg hk]
      have hbeq : (weekKey d == k) = false :=
        beq_eq_false_iff_ne.mpr fun h => hk h.symm
      rw [List.filter_cons, List.find?_cons, hbeq]
      simp only [Bool.false_eq_true, if_neg (by simp : ¬ False)]

lemma weekKeys_addToWeek (ws : List Week) (key : String) (day : PDay) :
    (addToWeek ws key day).map (fun w => w.sunday) =
      if key ∈ ws.map (fun w => w.sunday) then ws.map (fun w => w.sunday)
      else ws.map (fun w => w.sunday) ++ [key] := by
  induction ws with
  | nil => simp [addToWeek]
  | cons w rest ih =>
    by_cases hw : w.sunday = key
    · simp [addToWeek, hw]
    · have : ¬ key = w.sunday := fun h => hw h.symm
      simp only [addToWeek, if_neg hw, List.map_cons, List.mem_cons, this,
        false_or, ih]
      by_cases hmem : key ∈ rest.map (fun w => w.sunday) <;> simp [hmem]

lemma nodup_weekKeys_groupFold (days : List PDay) (ws : List Week)
    (h : (ws.map (fun w => w.sunday)).Nodup) :
    (((days.foldl (fun ws d => addToWeek ws (weekKey d) d) ws).map
      (fun w => w.sunday)).Nodup) := by
  induction days generalizing ws with
  | nil => exact h
  | cons d rest ih =>
    rw [List.foldl_cons]
    refine ih _ ?_
    rw [weekKeys_addToWeek]
    by_cases hmem : weekKey d ∈ ws.map (fun w => w.sunday)
    · simpa [hmem] using h
    · simp [hmem, List.nodup_append, h]

lemma lookupWeek_of_mem_nodup (ws : List Week) (w : Week) (h : w ∈ ws)
    (hn : (ws.map (fun x => x.sunday)).Nodup) :
    lookupWeek ws w.sunday = some w := by
  induction ws with
  | nil => cases h
  | cons x rest ih =>
    rw [lookupWeek_cons]
    rcases List.mem_cons.mp h with h1 | h1
    · subst h1; simp
    · have hx : ¬ x.sunday = w.sunday := by
        intro hEq
        have : x.sunday ∈ rest.map (fun x => x.sunday) :=
          hEq ▸ List.mem_map.mpr ⟨w, h1, rfl⟩
        exact (List.nodup_cons.mp (by simpa using hn)).1 this
      rw [if_neg hx]
      exact ih h1 (List.nodup_cons.mp (by simpa using hn)).2

/-- Saturday June 14, 2025, as a day record. -/
def satDay : PDay :=
  ⟨"2025-06-14", none, none, none, false, none, "Saturday, June 14, 2025", []⟩

/-- Sunday June 8, 2025, as a day record. -/
def sunDay : PDay :=
  ⟨"2025-06-08", none, none, none, false, none, "Sunday, June 8, 2025", []⟩

/-- C5 counterexample: in the newest-first list [June 14 (a Saturday),
June 8 (the preceding Sunday)] both days land in the bucket keyed by
"2025-06-08", but the bucket's first member is the Saturday day, not
the Sunday-dated day — a day dated on a Sunday is in general the last,
not the first, member of its bucket when later days of its week
precede it in the incoming order. -/
theorem week_sunday_first_member_cex :
    groupByWeek [satDay, sunDay] = [⟨"2025-06-08", [satDay, sunDay]⟩]
    ∧ parseYmd sunDay.date = some ⟨2025, 6, 8⟩
    ∧ dowOf ⟨2025, 6, 8⟩ = 0
    ∧ (⟨"2025-06-08", [satDay, sunDay]⟩ : Week).days.head? = some satDay
    ∧ satDay ≠ sunDay := by
  refine ⟨?_, by decide, by decide, by decide, by decide⟩
  have h1 : [satDay, sunDay].foldl
      (fun ws day => addToWeek ws (weekKey day) day) []
      = [⟨"2025-06-08", [satDay, sunDay]⟩] := by decide
  rw [groupByWeek, h1]
  simp

/-- C5 (amended): `getWeekSunday` maps a valid date to the date minus
its day-of-week offset (0 = Sunday), which is a Sunday at most six
days earlier; a day dated on a Sunday keys its own bucket (the key is
its own date), and the following Saturday gets the same key, hence
lands in the same bucket; the buckets are ordered newest-week-first
(descending Sunday key) and each bucket holds exactly the incoming
days with that key, in their incoming order.  (A Sunday-dated day is
NOT in general its bucket's first member — see the counterexample —
only the first-seen day of its week is.) -/
theorem week_bucketing (s s2 : String) (x : Ymd)
    (hparse : parseYmd s = some x) (hvalid : ValidYmd x) :
    (getWeekSunday s = fmtYmd (subDays x (dowOf x).toNat)
     ∧ dowOf (subDays x (dowOf x).toNat) = 0
     ∧ dayNumber x - dayNumber (subDays x (dowOf x).toNat) = dowOf x
     ∧ 0 ≤ dowOf x ∧ dowOf x ≤ 6)
    ∧ (dowOf x = 0 → getWeekSunday s = fmtYmd x)
    ∧ (dowOf x = 0 → parseYmd s2 = some (addDays x 6) →
        getWeekSunday s2 = getWeekSunday s)
    ∧ (∀ days : List PDay,
       ((groupByWeek days).Pairwise fun a b => b.sunday ≤ a.sunday)
       ∧ (∀ w ∈ groupByWeek days,
           w.days = days.filter fun d => getWeekSunday d.date == w.sunday)
       ∧ ∀ d ∈ days, ∃ w ∈ groupByWeek days,
           w.sunday = getWeekSunday d.date ∧ d ∈ w.days) := by
  have h0 : 0 ≤ dowOf x := Int.emod_nonneg _ (by norm_num)
  have h7 : dowOf x < 7 := Int.emod_lt_of_pos _ (by norm_num)
  have hcast : ((dowOf x).toNat : ℤ) = dowOf x := Int.toNat_of_nonneg h0
  have hdn : dayNumber (subDays x (dowOf x).toNat) = dayNumber x - dowOf x := by
    rw [dayNumber_subDays x hvalid, hcast]
  have hgws : getWeekSunday s = fmtYmd (subDays x (dowOf x).toNat) := by
    rw [getWeekSunday, hparse]
  refine ⟨⟨hgws, ?_, ?_, h0, by omega⟩, ?_, ?_, ?_⟩
  · rw [dowOf, hdn, dowOf]
    have := dayNumber x
    omega
  · omega
  · intro hsun
    rw [hgws, hsun]
    rfl
  · intro hsun hparse2
    have hvalid6 := validYmd_addDays x hvalid 6
    have hdn6 : dayNumber (addDays x 6) = dayNumber x + 6 :=
      dayNumber_addDays x hvalid 6
    have hdow6 : dowOf (addDays x 6) = 6 := by
      rw [dowOf, hdn6]
      rw [dowOf] at hsun
      omega
    rw [getWeekSunday, hparse2]
    dsimp only
    rw [hdow6, show ((6 : ℤ)).toNat = 6 from rfl, subDays_addDays x hvalid 6,
      hgws, hsun]
    rfl
  · intro days
    have hnodup : (((days.foldl (fun ws d => addToWeek ws (weekKey d) d)
        []).map (fun w => w.sunday)).Nodup) :=
      nodup_weekKeys_groupFold days [] (by simp)
    have hchar : ∀ w ∈ groupByWeek days,
        w.days = days.filter fun d => getWeekSunday d.date == w.sunday := by
      intro w hw
      rw [groupByWeek, List.mem_mergeSort] at hw
      have hlk := lookupWeek_of_mem_nodup _ w hw hnodup
      rw [lookupWeek_groupFold] at hlk
      rw [show lookupWeek [] w.sunday = none from rfl] at hlk
      cases hf : days.find? (fun d => weekKey d == w.sunday) with
      | none => rw [hf] at hlk; cases hlk
      | some d0 =>
        rw [hf] at hlk
        injection hlk with h2
        have h3 := congrArg Week.days h2
        dsimp only at h3
        rw [← h3]
        rfl
    refine ⟨?_, hchar, ?_⟩
    · rw [groupByWeek]
      have h := @List.sorted_mergeSort _
        (fun a b : Week => strLe b.sunday a.sunday)
        (fun a b c hab hbc => strLe_trans hbc hab)
        (fun a b => strLe_total b.sunday a.sunday)
        (days.foldl (fun ws d => addToWeek ws (weekKey d) d) [])
      exact h.imp fun hab => (strLe_iff_le _ _).mp hab
    · intro d hd
      have hfind : (days.find? (fun d2 => weekKey d2 == weekKey d)).isSome
          = true := by
        rw [List.find?_isSome]
        exact ⟨d, hd, beq_iff_eq.mpr rfl⟩
      have hlk := lookupWeek_groupFold days [] (weekKey d)
      rw [show lookupWeek [] (weekKey d) = none from rfl] at hlk
      cases hf : days.find? (fun d2 => weekKey d2 == weekKey d) with
      | none => rw [hf] at hfind; cases hfind
      | some d0 =>
        rw [hf] at hlk
        refine ⟨⟨weekKey d, days.filter fun d2 => weekKey d2 == weekKey d⟩,
          ?_, rfl, ?_⟩
        · rw [groupByWeek, List.mem_mergeSort]
          exact List.mem_of_find?_eq_some hlk
        · exact List.mem_filter.mpr ⟨hd, beq_iff_eq.mpr rfl⟩

theorem week_bucketing_witness :
    getWeekSunday "2025-06-08" = fmtYmd ⟨2025, 6, 8⟩
    ∧ getWeekSunday "2025-06-14" = getWeekSunday "2025-06-08"
    ∧ ((groupByWeek [satDay, sunDay]).Pairwise fun a b => b.sunday ≤ a.sunday) :=
  ⟨(week_bucketing "2025-06-08" "2025-06-14" ⟨2025, 6, 8⟩ (by decide)
      (by decide)).2.1 (by decide),
   (week_bucketing "2025-06-08" "2025-06-14" ⟨2025, 6, 8⟩ (by decide)
      (by decide)).2.2.1 (by decide) (by decide),
   ((week_bucketing "2025-06-08" "2025-06-14" ⟨2025, 6, 8⟩ (by decide)
      (by decide)).2.2.2 [satDay, sunDay]).1⟩
